import Mathlib

/-!
# Veyon VNC connection engine: a verification development

Shallow embedding of `core/src/VeyonVncConnection.cpp` (class `VeyonVncConnection`):
host parsing (`setHost`), the outbound event queue (`enqueueEvent`, `sendEvents`),
the state notifications (`setState`), the worker loop (`run`, `establishConnection`,
`handleConnection`, `closeConnection`), the framebuffer callbacks
(`hookInitFrameBuffer`, `finishFrameBufferUpdate`, `image`) and the exchange of the
Veyon security type (`handleSecTypeVeyon`).

Conventions.
* A `QString` is a `List Char`; an `int` is an `Int`; an `unsigned int` is a `Nat`.
  The two patterns of `setHost` tell characters apart only by `:`, `f`, `F` and the
  digit class, so the difference between a UTF-16 code unit and a `Char` does not show.
* `QRegExp` belongs to Qt, not to the repository.  Its matcher is modelled for the
  constructs of the two patterns: it reports the longest match at the offset, and the
  texts of the parentheses of that match.
* Arithmetic on `int` that can overflow is written with `wrapInt32`: the result of a
  signed 32-bit operation on a machine where it wraps around.
* The object is the record `VeyonVncConnection`; a member function is a function
  from the record to the record.  Signals are recorded in log fields of the record.
* Everything the worker thread learns from outside (the RFB library, the network,
  timers, other threads) is read from a `World`, indexed by a logical clock.
-/

namespace Veyon

/-! ## The fragment of `QRegExp` used by `setHost` -/

/-- Regular expressions of the shape the two patterns of `setHost` need: a single
character of a class, a greedy `*` or `+` over a class, concatenation, capturing
parentheses and the end-of-string assertion. -/
inductive Rx where
  | cls (p : Char → Bool)
  | star (p : Char → Bool)
  | plus (p : Char → Bool)
  | seq (a b : Rx)
  | cap (a : Rx)
  | eos

/-- All ways `r` matches a prefix of `s`: the matched length together with the texts
of the capturing parentheses, in the order of their opening parenthesis.  Greedy
alternatives come first. -/
def Rx.parses : Rx → List Char → List (Nat × List (List Char))
  | .cls p, s =>
    match s with
    | [] => []
    | c :: _ => if p c then [(1, [])] else []
  | .star p, s => ((List.range ((s.takeWhile p).length + 1)).reverse).map fun n => (n, [])
  | .plus p, s => (List.iota (s.takeWhile p).length).map fun n => (n, [])
  | .seq a b, s =>
    (a.parses s).flatMap fun x =>
      (b.parses (s.drop x.1)).map fun y => (x.1 + y.1, x.2 ++ y.2)
  | .cap a, s => (a.parses s).map fun x => (x.1, s.take x.1 :: x.2)
  | .eos, s => if s.isEmpty then [(0, [])] else []

/-- The first entry of maximal length: `QRegExp` reports the longest match at a
position. -/
def longest : List (Nat × List (List Char)) → Option (Nat × List (List Char))
  | [] => none
  | x :: xs =>
    match longest xs with
    | none => some x
    | some y => if x.1 < y.1 then some y else some x

/-- The match of `r` at offset 0 of `s`, when there is one: `rx.indexIn( s ) == 0` holds
exactly when this is `some`, and then `rx.cap( i )` is `cap i` of the result.  For the
two patterns of `setHost` the captures of a match are determined by its length
(`rxMapped_caps`) or by the text (`rxHostPort_caps`), so the choice among parses of
equal length does not matter. -/
def matchAtStart (r : Rx) (s : List Char) : Option (List (List Char)) :=
  (longest (r.parses s)).map fun x => x.2

/-- The text of capturing parenthesis `i` (counted from 1), as `QRegExp::cap( i )`. -/
def cap (caps : List (List Char)) (i : Nat) : List Char :=
  caps.getD (i - 1) []

/-- The predicate `QChar::isDigit`, which is the class `\d` of `QRegExp`: the ASCII
digits, and above code point 127 whatever the Unicode table of Qt lists as a decimal
digit.  The table is not part of the repository and is the parameter `isDigit_helper`. -/
def isDigit (isDigit_helper : Char → Bool) (c : Char) : Bool :=
  (decide ('0' ≤ c) && decide (c ≤ '9')) || (decide (127 < c.toNat) && isDigit_helper c)

/-- The class `.`: any character. -/
def anyChar : Char → Bool := fun _ => true

/-- The class of the single character `a`. -/
def isChar (a : Char) : Char → Bool := fun c => c == a

/-- The contents `\d+.\d+.\d+.\d+` of the parentheses of the first pattern of
`setHost`; the dots are not escaped in the source and stand for any character. -/
def rxQuad (nd : Char → Bool) : Rx :=
  let d : Rx := .plus (isDigit nd)
  let dot : Rx := .cls anyChar
  .seq d (.seq dot (.seq d (.seq dot (.seq d (.seq dot d)))))

/-- The pattern `"::[fF]{4}:(\\d+.\\d+.\\d+.\\d+)"` of `setHost`. -/
def rxMapped (nd : Char → Bool) : Rx :=
  let f : Rx := .cls fun c => c == 'f' || c == 'F'
  .seq (.cls (isChar ':')) (.seq (.cls (isChar ':')) (.seq f (.seq f (.seq f (.seq f
    (.seq (.cls (isChar ':')) (.cap (rxQuad nd))))))))

/-- The pattern `"(.*[^:]):(\\d+)$"` of `setHost`. -/
def rxHostPort (nd : Char → Bool) : Rx :=
  .seq (.cap (.seq (.star anyChar) (.cls fun c => c != ':')))
    (.seq (.cls (isChar ':')) (.seq (.cap (.plus (isDigit nd))) .eos))

/-- The conversion `QString::toInt()` on a text matched by `\d+`: the decimal value
when every character is an ASCII digit and the value fits an `int`, and 0 (the failure
value) otherwise. -/
def toInt (s : List Char) : Int :=
  if s ≠ [] ∧ s.all (fun c => decide ('0' ≤ c) && decide (c ≤ '9')) then
    let v : Nat := s.foldl (fun acc c => 10 * acc + (c.toNat - 48)) 0
    if v ≤ 2147483647 then (v : Int) else 0
  else 0

/-- The pattern has no capturing parentheses. -/
def Rx.flat : Rx → Bool
  | .seq a b => a.flat && b.flat
  | .cap _ => false
  | _ => true

/-- A non-empty string of ASCII decimal digits. -/
def IsDecimal (p : List Char) : Prop := p ≠ [] ∧ ∀ c ∈ p, '0' ≤ c ∧ c ≤ '9'

instance : DecidablePred IsDecimal := fun p => by
  unfold IsDecimal
  infer_instance

/-- The value of a decimal digit string, most significant digit first. -/
def decimalValue (p : List Char) : Nat :=
  Nat.ofDigits 10 (p.reverse.map fun c => c.toNat - 48)

/-! ## The data model -/

/-- The observable connection state, `VeyonVncConnection::State`. -/
inductive State where
  | Disconnected
  | Connecting
  | Connected
  | HostOffline
  | ServiceUnreachable
  | AuthenticationFailed
  | ConnectionFailed
  deriving DecidableEq, Repr

/-- The internal framebuffer phase, `VeyonVncConnection::FramebufferState`. -/
inductive FramebufferState where
  | FramebufferInvalid
  | FramebufferInitialized
  | FramebufferFirstUpdate
  | FramebufferValid
  deriving DecidableEq, Repr

/-- The three classes derived from `MessageEvent`, with their members. -/
inductive MessageEvent where
  | KeyClientEvent (m_key : Nat) (m_pressed : Bool)
  | PointerClientEvent (m_x m_y m_buttonMask : Int)
  | ClientCutEvent (m_text : List Nat)
  deriving DecidableEq, Repr

/-- What the worker hands to the RFB library for sending to the server. -/
inductive ClientMessage where
  | SendKeyEvent (key : Nat) (down : Bool)
  | SendPointerEvent (x y buttonMask : Int)
  | SendClientCutText (text : List Nat) (len : Nat)
  | SendFramebufferUpdateRequest (incremental : Bool)
  deriving DecidableEq, Repr

/-- The library call made by `fire` of each event class. -/
def MessageEvent.fire : MessageEvent → ClientMessage
  | .KeyClientEvent k p => .SendKeyEvent k p
  | .PointerClientEvent x y b => .SendPointerEvent x y b
  | .ClientCutEvent t => .SendClientCutText t t.length

/-- Modelled from the spec: the enumeration `RfbVeyonAuth::Type` is declared in a
header that is not among the sources.  The four values the source names are
constructors; every other value is `Other` with its integer tag. -/
inductive RfbVeyonAuth where
  | KeyFile
  | HostWhiteList
  | Logon
  | Token
  | Other (tag : Nat)
  deriving DecidableEq, Repr

/-- A `QImage` as far as its size: the null image, or an image that wraps pixel data
of a width and a height. -/
inductive QImage where
  | null
  | wrap (width height : Int)
  deriving DecidableEq, Repr

/-- The accessor `QImage::width`; a null image has width 0. -/
def QImage.width : QImage → Int
  | .null => 0
  | .wrap w _ => w

/-- The accessor `QImage::height`; a null image has height 0. -/
def QImage.height : QImage → Int
  | .null => 0
  | .wrap _ h => h

/-- The test `QImage::isNull`. -/
def QImage.isNull : QImage → Bool
  | .null => true
  | .wrap _ _ => false

/-- The constructor `QImage( data, width, height, QImage::Format_RGB32, ... )` of Qt 5 on
allocated data: the image is null when a dimension is not positive or the 4 bytes per
pixel of all lines together exceed `INT_MAX`, and wraps the data otherwise. -/
def QImage.fromData (width height : Int) : QImage :=
  if 0 < width ∧ 0 < height ∧ 4 * width * height ≤ 2147483647 then .wrap width height
  else .null

/-- A block of memory from `new uint8_t[size]` after `memset( ..., byte, size )`: its
size in bytes and the byte it is filled with. -/
structure Buffer where
  size : Nat
  byte : Nat
  deriving DecidableEq, Repr

/-- The value of an `int` expression whose mathematical value is `x`, on a machine
where signed 32-bit arithmetic wraps around. -/
def wrapInt32 (x : Int) : Int :=
  (x + 2147483648) % 4294967296 - 2147483648

/-- The conversion `static_cast<uint64_t>` of an `int`. -/
def toUInt64 (x : Int) : Nat :=
  (x % 18446744073709551616).toNat

/-- The members of `VeyonVncConnection` the embedded functions touch, with the frame
buffer of the client, followed by logs of what the object emits: the states at each
`stateChanged()`, the handles of `newClient`, the library calls with the handle they
were made on, the timeouts passed to the interruptible sleeper, the sizes carried by
`framebufferSizeChanged` and the number of `framebufferUpdateComplete`.  `clock` counts
the reads from the `World`.  A client handle is the number of the `rfbGetClient` call
that returned it; `none` is the null pointer. -/
structure VeyonVncConnection where
  m_serviceReachable : Bool
  m_framebufferState : FramebufferState
  m_cl : Option Nat
  m_veyonAuthType : RfbVeyonAuth
  m_host : List Char
  m_port : Int
  m_framebufferUpdateInterval : Int
  m_image : QImage
  m_scaledScreenNeedsUpdate : Bool
  m_state : State
  m_eventQueue : List MessageEvent
  frameBuffer : Option Buffer
  stateChanged : List State
  newClient : List Nat
  sent : List (Option Nat × ClientMessage)
  slept : List Nat
  framebufferSizeChanged : List (Int × Int)
  framebufferUpdateComplete : Nat
  clock : Nat
  deriving DecidableEq, Repr

/-- The object as the constructor leaves it; `keyFileAuthentication` tells whether the
configured authentication method is `VeyonCore::KeyFileAuthentication`. -/
def VeyonVncConnection.new (keyFileAuthentication : Bool) : VeyonVncConnection where
  m_serviceReachable := false
  m_framebufferState := .FramebufferInvalid
  m_cl := none
  m_veyonAuthType := if keyFileAuthentication then .KeyFile else .Logon
  m_host := []
  m_port := -1
  m_framebufferUpdateInterval := 0
  m_image := .null
  m_scaledScreenNeedsUpdate := false
  m_state := .Disconnected
  m_eventQueue := []
  frameBuffer := none
  stateChanged := []
  newClient := []
  sent := []
  slept := []
  framebufferSizeChanged := []
  framebufferUpdateComplete := 0
  clock := 0

/-! ## Host parsing -/

/-- Embedding of `VeyonVncConnection::setHost` (lines 382 to 409). -/
def setHost (nd : Char → Bool) (host : List Char) (c : VeyonVncConnection) :
    VeyonVncConnection :=
  let c := { c with m_host := host }
  match matchAtStart (rxMapped nd) c.m_host with
  | some caps => { c with m_host := cap caps 1 }
  | none =>
    if c.m_host = "::1".toList then
      { c with m_host := "127.0.0.1".toList }
    else if c.m_host.count ':' = 1 then
      match matchAtStart (rxHostPort nd) c.m_host with
      | some caps => { c with m_host := cap caps 1, m_port := toInt (cap caps 2) }
      | none => c
    else c

/-! ## State notifications and the event queue -/

/-- Embedding of `VeyonVncConnection::setState` (lines 658 to 666). -/
def setState (state : State) (c : VeyonVncConnection) : VeyonVncConnection :=
  if state ≠ c.m_state then
    { c with m_state := state, stateChanged := c.stateChanged ++ [state] }
  else c

/-- Embedding of `VeyonVncConnection::enqueueEvent` (lines 715 to 724). -/
def enqueueEvent (e : MessageEvent) (c : VeyonVncConnection) : VeyonVncConnection :=
  if c.m_state ≠ .Connected then c
  else { c with m_eventQueue := c.m_eventQueue ++ [e] }

/-- Embedding of `VeyonVncConnection::mouseEvent` (lines 729 to 732). -/
def mouseEvent (x y buttonMask : Int) (c : VeyonVncConnection) : VeyonVncConnection :=
  enqueueEvent (.PointerClientEvent x y buttonMask) c

/-- Embedding of `VeyonVncConnection::keyEvent` (lines 737 to 740). -/
def keyEvent (key : Nat) (pressed : Bool) (c : VeyonVncConnection) : VeyonVncConnection :=
  enqueueEvent (.KeyClientEvent key pressed) c

/-- Embedding of `VeyonVncConnection::clientCut` (lines 745 to 748), on the UTF-8 bytes of the text. -/
def clientCut (utf8 : List Nat) (c : VeyonVncConnection) : VeyonVncConnection :=
  enqueueEvent (.ClientCutEvent utf8) c

/-! ## The outside world -/

/-- What one call of `rfbInitClient` did: its return value, whether the Veyon security
type was negotiated (which runs `hookPrepareAuthentication`), and whether the server
initialisation was reached (which runs `hookInitFrameBuffer`), with the framebuffer
size the server announced in it. -/
structure InitResult where
  ok : Bool
  prepareAuthentication : Bool
  initFrameBuffer : Bool
  framebufferWidth : Int
  framebufferHeight : Int
  deriving DecidableEq, Repr

/-- The callbacks of the object a server message can trigger that change the members
embedded here: the allocation callback, with the new framebuffer size the server
announced, and the callback at the end of a framebuffer update. -/
inductive Callback where
  | hookInitFrameBuffer (width height : Int)
  | hookFinishFrameBufferUpdate
  deriving DecidableEq, Repr

/-- What one call of `HandleRFBServerMessage` did: the callbacks it ran, in order, and
its return value. -/
structure ServerMessage where
  callbacks : List Callback
  handledOkay : Bool
  deriving DecidableEq, Repr

/-- Everything the worker thread reads from outside, as a function of the logical
instant of the read.  The interruption flag of the thread is only ever set during a
run, so it is given by the instant from which it is set. -/
structure World where
  interruptionRequestedAt : Option Nat
  rfbInitClient : Nat → InitResult
  ping : Nat → Bool
  waitForMessage : Nat → Int
  handleRFBServerMessage : Nat → ServerMessage
  hasExpired : Nat → Bool
  elapsed : Nat → Int
  enqueueEvent : Nat → List MessageEvent

/-- The flag `QThread::isInterruptionRequested` at instant `t`. -/
def World.isInterruptionRequested (w : World) (t : Nat) : Bool :=
  match w.interruptionRequestedAt with
  | some t0 => decide (t0 ≤ t)
  | none => false

/-- The world in which nothing happens: no interruption, every connection attempt
fails without reaching a server, the host does not answer a ping, no other thread
enqueues events. -/
def World.offline : World where
  interruptionRequestedAt := none
  rfbInitClient := fun _ =>
    { ok := false, prepareAuthentication := false, initFrameBuffer := false,
      framebufferWidth := 0, framebufferHeight := 0 }
  ping := fun _ => false
  waitForMessage := fun _ => 0
  handleRFBServerMessage := fun _ => { callbacks := [], handledOkay := true }
  hasExpired := fun _ => false
  elapsed := fun _ => 0
  enqueueEvent := fun _ => []

/-- A world with a server: every connection attempt succeeds, the server closes the
connection at the first wait for a message, and the interruption is requested at
instant `t0`. -/
def World.serverClosing (t0 : Nat) : World where
  interruptionRequestedAt := some t0
  rfbInitClient := fun _ =>
    { ok := true, prepareAuthentication := true, initFrameBuffer := true,
      framebufferWidth := 320, framebufferHeight := 240 }
  ping := fun _ => true
  waitForMessage := fun _ => -1
  handleRFBServerMessage := fun _ => { callbacks := [], handledOkay := false }
  hasExpired := fun _ => false
  elapsed := fun _ => 0
  enqueueEvent := fun _ => []

/-- One read from the world, or one wait of the worker on it: the clock advances and
the `enqueueEvent` calls other threads make at this instant run. -/
def tick (w : World) (c : VeyonVncConnection) : VeyonVncConnection :=
  (w.enqueueEvent c.clock).foldl (fun c e => enqueueEvent e c) { c with clock := c.clock + 1 }

/-- How a function with loops ended within the iterations it was allowed: it returned
(with a value and the object), or it is still running (with the object so far). -/
inductive Outcome (α : Type) where
  | returned (a : α) (c : VeyonVncConnection)
  | running (c : VeyonVncConnection)

/-- The object at the end, or so far. -/
def Outcome.conn {α : Type} : Outcome α → VeyonVncConnection
  | .returned _ c => c
  | .running c => c

/-- Whether the function returned. -/
def Outcome.isReturned {α : Type} : Outcome α → Bool
  | .returned _ _ => true
  | .running _ => false

/-! ## The callbacks -/

/-- The value `size` of `hookInitFrameBuffer` (line 120):
`static_cast<uint64_t>( client->width * client->height * ( client->format.bitsPerPixel / 8 ) )`,
a product of `int`s that is converted afterwards. -/
def frameBufferSize (width height : Int) (bitsPerPixel : Nat) : Nat :=
  toUInt64 (wrapInt32 (wrapInt32 (width * height) * ((bitsPerPixel : Int) / 8)))

/-- Embedding of `VeyonVncConnection::hookInitFrameBuffer` (lines 116 to 173) on a client
with the members `width`, `height` and `format.bitsPerPixel` given: the buffer is
allocated and filled with zeros, the image wraps it, and the phase is set.  The pixel format and the encodings written
to the client structure are not tracked, and neither is a failure of the allocation. -/
def hookInitFrameBuffer (width height : Int) (bitsPerPixel : Nat) (c : VeyonVncConnection) :
    VeyonVncConnection :=
  let size := frameBufferSize width height bitsPerPixel
  { c with
    frameBuffer := some { size := size, byte := 0 }
    m_image := QImage.fromData width height
    m_framebufferState := .FramebufferInitialized }

/-- Embedding of `VeyonVncConnection::image` (lines 425 to 429). -/
def image (c : VeyonVncConnection) : QImage :=
  c.m_image

/-- Embedding of `VeyonVncConnection::hookPrepareAuthentication` (lines 897 to 906), called on a client whose client
data is this object. -/
def hookPrepareAuthentication (c : VeyonVncConnection) : VeyonVncConnection :=
  { c with m_serviceReachable := true }

/-- Embedding of `VeyonVncConnection::finishFrameBufferUpdate` (lines 670 to 688). -/
def finishFrameBufferUpdate (c : VeyonVncConnection) : VeyonVncConnection :=
  let c :=
    match c.m_framebufferState with
    | .FramebufferInitialized =>
      { c with
        framebufferSizeChanged :=
          c.framebufferSizeChanged ++ [(c.m_image.width, c.m_image.height)]
        m_framebufferState := .FramebufferFirstUpdate }
    | .FramebufferFirstUpdate => { c with m_framebufferState := .FramebufferValid }
    | _ => c
  { c with
    framebufferUpdateComplete := c.framebufferUpdateComplete + 1
    m_scaledScreenNeedsUpdate := true }

/-- Runs one callback.  The allocation callback finds 32 bits per pixel in the client:
`rfbGetClient( 8, 3, 4 )` sets them, and so does every earlier allocation callback. -/
def Callback.run : Callback → VeyonVncConnection → VeyonVncConnection
  | .hookInitFrameBuffer width height, c => Veyon.hookInitFrameBuffer width height 32 c
  | .hookFinishFrameBufferUpdate, c => Veyon.finishFrameBufferUpdate c

/-! ## The worker loop -/

/-- Embedding of `VeyonVncConnection::sendEvents` (lines 692 to 711).  While an event is fired the mutex is released,
so other threads may enqueue. -/
def sendEvents (w : World) : Nat → VeyonVncConnection → Outcome Unit
  | 0, c => .running c
  | fuel + 1, c =>
    match c.m_eventQueue with
    | [] => .returned () c
    | event :: rest =>
      let c := { c with m_eventQueue := rest }
      let c := tick w c
      let c := { c with sent := c.sent ++ [(c.m_cl, event.fire)] }
      sendEvents w fuel c

/-- The loop body of `establishConnection` from `rfbGetClient` to the return of
`rfbInitClient` (lines 484 to 514): the return value of `rfbInitClient` and the object
after it.  The server address copied into the client structure is not tracked. -/
def connectAttempt (w : World) (c : VeyonVncConnection) : Bool × VeyonVncConnection :=
  let cl := c.newClient.length
  let c := { c with m_cl := some cl, newClient := c.newClient ++ [cl] }
  let c := { c with m_serviceReachable := false }
  let r := w.rfbInitClient c.clock
  let c := tick w c
  let c := if r.prepareAuthentication then hookPrepareAuthentication c else c
  let c :=
    if r.initFrameBuffer then hookInitFrameBuffer r.framebufferWidth r.framebufferHeight 32 c
    else c
  (r.ok, c)

/-- The timeout `establishConnection` passes to the sleeper before the next attempt
(lines 553 to 561). -/
def retryTimeout (c : VeyonVncConnection) : Nat :=
  if c.m_framebufferUpdateInterval > 0 then c.m_framebufferUpdateInterval.toNat
  else 1000

/-- The branch of `establishConnection` taken when `rfbInitClient` failed (lines 519 to
563): the object after it, and whether the loop was left by `break`. -/
def connectionFailed (w : World) (c : VeyonVncConnection) : VeyonVncConnection × Bool :=
  let c := { c with m_cl := none }
  let c :=
    if c.m_serviceReachable = false then
      let reachable := w.ping c.clock
      let c := tick w c
      if reachable = false then setState .HostOffline c
      else setState .ServiceUnreachable c
    else if c.m_framebufferState = .FramebufferInvalid then
      setState .AuthenticationFailed c
    else
      setState .ConnectionFailed c
  let interrupted := w.isInterruptionRequested c.clock
  let c := tick w c
  if interrupted then (c, true)
  else
    let c := { c with slept := c.slept ++ [retryTimeout c] }
    (tick w c, false)

/-- The `while` loop of `establishConnection`. -/
def establishConnectionLoop (w : World) : Nat → VeyonVncConnection → Outcome Unit
  | 0, c => .running c
  | fuel + 1, c =>
    let interrupted := w.isInterruptionRequested c.clock
    let c := tick w c
    if interrupted = false && c.m_state != .Connected then
      match connectAttempt w c with
      | (true, c) => establishConnectionLoop w fuel (setState .Connected c)
      | (false, c) =>
        match connectionFailed w c with
        | (c, true) => .returned () c
        | (c, false) => establishConnectionLoop w fuel c
    else .returned () c

/-- Embedding of `VeyonVncConnection::establishConnection` (lines 474 to 565). -/
def establishConnection (w : World) (fuel : Nat) (c : VeyonVncConnection) : Outcome Unit :=
  let c := setState .Connecting c
  let c := { c with m_framebufferState := .FramebufferInvalid }
  establishConnectionLoop w fuel c

/-- The `do`-`while` loop of `handleConnection` over the available server messages;
the value is `handledOkay`. -/
def handleMessages (w : World) : Nat → VeyonVncConnection → Outcome Bool
  | 0, c => .running c
  | fuel + 1, c =>
    let m := w.handleRFBServerMessage c.clock
    let c := tick w c
    let c := m.callbacks.foldl (fun c cb => cb.run c) c
    if m.handledOkay then
      let more := w.waitForMessage c.clock
      let c := tick w c
      if more ≠ 0 then handleMessages w fuel c else .returned true c
    else .returned false c

/-- The `switch` of `handleConnection` on the framebuffer phase: `none` when the
function returns because the initial framebuffer timeout has expired. -/
def requestUpdate (w : World) (c : VeyonVncConnection) : Option VeyonVncConnection :=
  match c.m_framebufferState with
  | .FramebufferInitialized =>
    let expired := w.hasExpired c.clock
    let c := tick w c
    if expired then none
    else some { c with sent := c.sent ++ [(c.m_cl, .SendFramebufferUpdateRequest false)] }
  | .FramebufferFirstUpdate =>
    some { c with sent := c.sent ++ [(c.m_cl, .SendFramebufferUpdateRequest false)] }
  | _ => some { c with sent := c.sent ++ [(c.m_cl, .SendFramebufferUpdateRequest true)] }

/-- The end of the loop body of `handleConnection`: the wait for the rest of the update
interval. -/
def waitUpdateInterval (w : World) (c : VeyonVncConnection) : VeyonVncConnection :=
  let remainingUpdateInterval := c.m_framebufferUpdateInterval - w.elapsed c.clock
  let c := tick w c
  if remainingUpdateInterval > 0 then
    let interrupted := w.isInterruptionRequested c.clock
    let c := tick w c
    if interrupted = false then
      tick w { c with slept := c.slept ++ [remainingUpdateInterval.toNat] }
    else c
  else c

/-- The main loop of `handleConnection`; the value tells whether the loop was left (so
that the final `sendEvents` runs) rather than the function returned from inside. -/
def handleConnectionLoop (w : World) : Nat → VeyonVncConnection → Outcome Bool
  | 0, c => .running c
  | fuel + 1, c =>
    let interrupted := w.isInterruptionRequested c.clock
    let c := tick w c
    if interrupted then .returned true c
    else
      let i := w.waitForMessage c.clock
      let c := tick w c
      let interrupted := w.isInterruptionRequested c.clock
      let c := tick w c
      if interrupted || i < 0 then .returned true c
      else
        match (if i ≠ 0 then handleMessages w fuel c else .returned true c) with
        | .running c => .running c
        | .returned false c => .returned true c
        | .returned true c =>
          match requestUpdate w c with
          | none => .returned false c
          | some c =>
            match sendEvents w fuel c with
            | .running c => .running c
            | .returned _ c => handleConnectionLoop w fuel (waitUpdateInterval w c)

/-- Embedding of `VeyonVncConnection::handleConnection` (lines 569 to 641). -/
def handleConnection (w : World) (fuel : Nat) (c : VeyonVncConnection) : Outcome Unit :=
  match handleConnectionLoop w fuel c with
  | .running c => .running c
  | .returned false c => .returned () c
  | .returned true c => sendEvents w fuel c

/-- Embedding of `VeyonVncConnection::closeConnection` (lines 645 to 654). -/
def closeConnection (w : World) (c : VeyonVncConnection) : VeyonVncConnection :=
  let c := if c.m_cl.isSome then tick w { c with m_cl := none } else c
  setState .Disconnected c

/-- Embedding of `VeyonVncConnection::run` (lines 460 to 470), the worker loop. -/
def run (w : World) : Nat → VeyonVncConnection → Outcome Unit
  | 0, c => .running c
  | fuel + 1, c =>
    let interrupted := w.isInterruptionRequested c.clock
    let c := tick w c
    if interrupted then .returned () (setState .Disconnected c)
    else
      match establishConnection w fuel c with
      | .running c => .running c
      | .returned _ c =>
        match handleConnection w fuel c with
        | .running c => .running c
        | .returned _ c => run w fuel (closeConnection w c)

/-! ## The choice of the Veyon authentication type -/

/-- The choice of `chosenAuthType` in `handleSecTypeVeyon` (lines 776 to 796);
`connection` is the client data of the client, `none` when it is null. -/
def chosenAuthType (connection : Option VeyonVncConnection) (authTypes : List RfbVeyonAuth) :
    RfbVeyonAuth :=
  match authTypes with
  | [] => .Token
  | first :: _ =>
    match connection with
    | none => first
    | some connection =>
      authTypes.foldl
        (fun chosen authType => if connection.m_veyonAuthType = authType then authType else chosen)
        first

/-- The four states `establishConnection` sets after a failed attempt. -/
def State.isFailure : State → Bool
  | .HostOffline | .ServiceUnreachable | .AuthenticationFailed | .ConnectionFailed => true
  | _ => false

/-- The session order on two consecutive notified states: `Connected` is entered only
from `Connecting` or a failure state, `Connected` is left only for `Disconnected`, and
a failure state is entered only from `Connecting` or a failure state. -/
def sessionOrder (p q : State) : Prop :=
  (q = .Connected → p = .Connecting ∨ p.isFailure = true) ∧
  (p = .Connected → q = .Disconnected) ∧
  (q.isFailure = true → p = .Connecting ∨ p.isFailure = true)

/-- The notification log is consistent: the consecutive entries of `seed` followed by
the log are related by `R`, and the last of them, when there is one, is the current
state.  The seed is empty, or holds the state the object had before the log began. -/
def Notified (R : State → State → Prop) (seed : List State) (c : VeyonVncConnection) : Prop :=
  List.Chain' R (seed ++ c.stateChanged) ∧ ∀ s ∈ (seed ++ c.stateChanged).getLast?, s = c.m_state

/-- The second object has the state and the notification log of the first. -/
def SameNotifications (c c' : VeyonVncConnection) : Prop :=
  c'.m_state = c.m_state ∧ c'.stateChanged = c.stateChanged

/-- Consecutive notified states differ and respect the session order. -/
def stepOrder (p q : State) : Prop := p ≠ q ∧ sessionOrder p q

/-! ## The Veyon security type -/

/-- Modelled from the spec: the classes `VariantArrayMessage` and `SocketDevice` are not
among the sources.  A message is an array of variants; these are the variants
`handleSecTypeVeyon` writes, and `invalid` is what reading past the end of a message
gives. -/
inductive Variant where
  | invalid
  | int (n : Int)
  | authType (t : RfbVeyonAuth)
  | string (s : List Char)
  | byteArray (b : List Nat)
  deriving DecidableEq, Repr

/-- One operation on the socket of the client: the read of one message by `receive`, or
the write of one message by `send`. -/
inductive SocketOp where
  | read
  | write (message : List Variant)
  deriving DecidableEq, Repr

/-- Modelled from the spec: the method `VariantArrayMessage::receive`, on the messages
the server sends from now on: the message read, which is empty when the server sends
nothing, and the messages left. -/
def receive (incoming : List (List Variant)) : List Variant × List (List Variant) :=
  match incoming with
  | [] => ([], [])
  | message :: rest => (message, rest)

/-- What `handleSecTypeVeyon` takes from outside the class: the credentials of
`VeyonCore::authenticationCredentials()`, the current user of the platform, the key name
of the `VeyonCore` instance, the operations and the challenge size of `CryptoCore`, and
the conversions of `QVariant`.  `privateKeyUsable` tells that the private key is neither
null nor unable to sign; `canEncrypt` and `encrypt` take the PEM text of the public key;
`token` is the variant written for `token()`. -/
structure VeyonCore where
  hasUserLogon : Bool
  logonUsername : List Char
  logonPassword : List Char
  currentUser : List Char
  hasPrivateKey : Bool
  privateKeyUsable : Bool
  signMessage : List Nat → List Nat
  authenticationKeyName : List Char
  challengeSize : Nat
  canEncrypt : List Char → Bool
  encrypt : List Char → List Char → List Nat
  token : Variant
  toInt : Variant → Int
  toAuthType : Variant → RfbVeyonAuth
  toByteArray : Variant → List Nat
  toString : Variant → List Char

/-- The authentication types read from the first message in `handleSecTypeVeyon` (lines
759 to 772): the count, then as many types. -/
def offeredAuthTypes (core : VeyonCore) (message : List Variant) : List RfbVeyonAuth :=
  let authTypeCount := core.toInt (message.headD .invalid)
  (List.range authTypeCount.toNat).map fun i =>
    core.toAuthType ((message.drop 1).getD i .invalid)

/-- Embedding of `VeyonVncConnection::handleSecTypeVeyon` (lines 753 to 893): the
operations on the socket, in order.  `connection` is the client data of the client and
`incoming` the messages the server sends. -/
def handleSecTypeVeyon (core : VeyonCore) (connection : Option VeyonVncConnection)
    (incoming : List (List Variant)) : List SocketOp :=
  let message := (receive incoming).1
  let incoming := (receive incoming).2
  let authTypes := offeredAuthTypes core message
  let chosen := chosenAuthType connection authTypes
  let username := if core.hasUserLogon then core.logonUsername else core.currentUser
  let authReplyMessage := [Variant.authType chosen, Variant.string username]
  let incoming := (receive incoming).2
  let ops := [SocketOp.read, SocketOp.write authReplyMessage, SocketOp.read]
  match chosen with
  | .KeyFile =>
    if core.hasPrivateKey then
      let challengeReceiveMessage := (receive incoming).1
      let challenge := core.toByteArray (challengeReceiveMessage.headD .invalid)
      if challenge.length ≠ core.challengeSize then ops ++ [SocketOp.read]
      else if core.privateKeyUsable = false then ops ++ [SocketOp.read]
      else
        ops ++ [SocketOp.read,
          SocketOp.write [Variant.string core.authenticationKeyName,
            Variant.byteArray (core.signMessage challenge)]]
    else ops
  | .HostWhiteList => ops
  | .Logon =>
    let publicKeyMessage := (receive incoming).1
    let pem := core.toString (publicKeyMessage.headD .invalid)
    if core.canEncrypt pem = false then ops ++ [SocketOp.read]
    else
      let encryptedPassword := core.encrypt pem core.logonPassword
      if encryptedPassword.isEmpty then ops ++ [SocketOp.read]
      else ops ++ [SocketOp.read, SocketOp.write [Variant.byteArray encryptedPassword]]
  | .Token => ops ++ [SocketOp.write [core.token]]
  | .Other _ => ops

/-- A setup with token credentials only: the user `alice` is logged on to the system, no
logon credentials and no private key are set, and the token is the four bytes
`DE AD BE EF`. -/
def VeyonCore.withToken : VeyonCore where
  hasUserLogon := false
  logonUsername := []
  logonPassword := []
  currentUser := "alice".toList
  hasPrivateKey := false
  privateKeyUsable := false
  signMessage := fun _ => []
  authenticationKeyName := []
  challengeSize := 128
  canEncrypt := fun _ => false
  encrypt := fun _ _ => []
  token := .byteArray [0xDE, 0xAD, 0xBE, 0xEF]
  toInt := fun v => match v with
    | .int n => n
    | _ => 0
  toAuthType := fun v => match v with
    | .authType t => t
    | _ => .Other 0
  toByteArray := fun v => match v with
    | .byteArray b => b
    | _ => []
  toString := fun v => match v with
    | .string s => s
    | _ => []

/-! ## A schedule with a stale event -/

/-- A world in which the first connection succeeds and allocates a 320 by 240
framebuffer, the server then stays silent, and the initial framebuffer timeout expires
in the eleventh pass through the loop of `handleConnection` (instant 57).  During the
wait for a message of that pass (instant 55) another thread calls `keyEvent`, and the
interruption is requested at instant 59, when `establishConnection` has just been
entered again. -/
def World.staleEvent : World where
  interruptionRequestedAt := some 59
  rfbInitClient := fun _ =>
    { ok := true, prepareAuthentication := true, initFrameBuffer := true,
      framebufferWidth := 320, framebufferHeight := 240 }
  ping := fun _ => true
  waitForMessage := fun _ => 0
  handleRFBServerMessage := fun _ => { callbacks := [], handledOkay := true }
  hasExpired := fun t => decide (57 ≤ t)
  elapsed := fun _ => 500
  enqueueEvent := fun t => if t = 55 then [.KeyClientEvent 65 true] else []

/-! # Theorems -/

/-! ## Lemmas on the pattern matcher -/

theorem longest_eq_none {l : List (Nat × List (List Char))} (h : longest l = none) : l = [] := by
  cases l with
  | nil => rfl
  | cons x xs =>
    simp only [longest] at h
    split at h
    · simp at h
    · split at h <;> simp at h

theorem longest_mem {l : List (Nat × List (List Char))} {x} (h : longest l = some x) : x ∈ l := by
  induction l generalizing x with
  | nil => simp [longest] at h
  | cons a as ih =>
    simp only [longest] at h
    split at h
    · simp at h; simp [h]
    · rename_i y hy
      split at h
      · simp at h; subst h; exact List.mem_cons_of_mem _ (ih hy)
      · simp at h; simp [h]

theorem longest_ge {l : List (Nat × List (List Char))} {x} (h : longest l = some x) :
    ∀ y ∈ l, y.1 ≤ x.1 := by
  induction l generalizing x with
  | nil => simp
  | cons a as ih =>
    simp only [longest] at h
    intro y hy
    split at h
    · rename_i hn
      have := longest_eq_none hn
      subst this
      simp at h hy
      subst h; subst hy; exact le_refl _
    · rename_i z hz
      have hz2 := ih hz
      split at h
      · simp at h; subst h
        rcases List.mem_cons.1 hy with rfl | hy
        · omega
        · exact hz2 y hy
      · simp at h; subst h
        rcases List.mem_cons.1 hy with rfl | hy
        · exact le_refl _
        · have := hz2 y hy; omega

theorem parses_le (r : Rx) : ∀ (s : List Char) x, x ∈ r.parses s → x.1 ≤ s.length := by
  induction r with
  | cls p =>
    intro s x hx
    cases s with
    | nil => simp [Rx.parses] at hx
    | cons c t =>
      simp only [Rx.parses] at hx
      split at hx
      · simp at hx; subst hx; simp
      · simp at hx
  | star p =>
    intro s x hx
    simp only [Rx.parses, List.mem_map, List.mem_reverse, List.mem_range] at hx
    obtain ⟨n, hn, rfl⟩ := hx
    have := (List.takeWhile_sublist (l := s) p).length_le
    simp; omega
  | plus p =>
    intro s x hx
    simp only [Rx.parses, List.mem_map, List.mem_iota] at hx
    obtain ⟨n, hn, rfl⟩ := hx
    have := (List.takeWhile_sublist (l := s) p).length_le
    simp; omega
  | seq a b iha ihb =>
    intro s x hx
    simp only [Rx.parses, List.mem_flatMap, List.mem_map] at hx
    obtain ⟨y, hy, z, hz, rfl⟩ := hx
    have h1 := iha s y hy
    have h2 := ihb _ z hz
    simp at h2 ⊢; omega
  | cap a ih =>
    intro s x hx
    simp only [Rx.parses, List.mem_map] at hx
    obtain ⟨y, hy, rfl⟩ := hx
    exact ih s y hy
  | eos =>
    intro s x hx
    simp only [Rx.parses] at hx
    split at hx
    · simp at hx; subst hx; simp
    · simp at hx

/-- A pattern that matches the whole text, with the captures determined by that,
reports those captures. -/
theorem matchAtStart_of_full {r : Rx} {s : List Char} {caps : List (List Char)}
    (hfull : (s.length, caps) ∈ r.parses s)
    (huniq : ∀ x ∈ r.parses s, x.1 = s.length → x.2 = caps) :
    matchAtStart r s = some caps := by
  unfold matchAtStart
  cases h : longest (r.parses s) with
  | none => have := longest_eq_none h; rw [this] at hfull; simp at hfull
  | some x =>
    have h1 := longest_ge h _ hfull
    have h2 := parses_le r s x (longest_mem h)
    simp at h1
    simp [huniq x (longest_mem h) (by omega)]

theorem matchAtStart_of_nil {r : Rx} {s : List Char} (h : r.parses s = []) :
    matchAtStart r s = none := by
  simp [matchAtStart, h, longest]

theorem parses_seq_intro {a b : Rx} {s : List Char} {x y : Nat × List (List Char)}
    (hx : x ∈ a.parses s) (hy : y ∈ b.parses (s.drop x.1)) :
    (x.1 + y.1, x.2 ++ y.2) ∈ (Rx.seq a b).parses s := by
  simp only [Rx.parses, List.mem_flatMap, List.mem_map]
  exact ⟨x, hx, y, hy, rfl⟩

theorem parses_cls_intro {p : Char → Bool} {c : Char} {t : List Char} (h : p c = true) :
    (1, []) ∈ (Rx.cls p).parses (c :: t) := by
  simp [Rx.parses, h]

theorem parses_plus_intro {p : Char → Bool} {a t : List Char} (hne : a ≠ [])
    (hp : ∀ c ∈ a, p c = true) : (a.length, []) ∈ (Rx.plus p).parses (a ++ t) := by
  simp only [Rx.parses, List.mem_map, List.mem_iota]
  refine ⟨a.length, ⟨?_, ?_⟩, rfl⟩
  · cases a with
    | nil => exact absurd rfl hne
    | cons c cs => simp
  · rw [List.takeWhile_append_of_pos hp]; simp

theorem parses_seq_cls_intro {p : Char → Bool} {r : Rx} {c : Char} {t : List Char}
    {n : Nat} {caps : List (List Char)} (h : p c = true) (hy : (n, caps) ∈ r.parses t) :
    (n + 1, caps) ∈ (Rx.seq (.cls p) r).parses (c :: t) := by
  have := parses_seq_intro (a := .cls p) (b := r) (s := c :: t) (x := (1, [])) (y := (n, caps))
    (parses_cls_intro h) (by simpa using hy)
  simpa [Nat.add_comm] using this

theorem parses_seq_plus_intro {p : Char → Bool} {r : Rx} {a t : List Char}
    {n : Nat} {caps : List (List Char)} (hne : a ≠ []) (hp : ∀ c ∈ a, p c = true)
    (hy : (n, caps) ∈ r.parses t) :
    (a.length + n, caps) ∈ (Rx.seq (.plus p) r).parses (a ++ t) := by
  have := parses_seq_intro (a := .plus p) (b := r) (s := a ++ t) (x := (a.length, []))
    (y := (n, caps)) (parses_plus_intro hne hp) (by simpa using hy)
  simpa using this

theorem parses_cap_intro {r : Rx} {s : List Char} {n : Nat} {caps : List (List Char)}
    (hy : (n, caps) ∈ r.parses s) : (n, s.take n :: caps) ∈ (Rx.cap r).parses s := by
  simp only [Rx.parses, List.mem_map]
  exact ⟨(n, caps), hy, rfl⟩

theorem parses_seq_cls_nil {p : Char → Bool} {r : Rx} {c : Char} {t : List Char}
    (h : p c = false) : (Rx.seq (.cls p) r).parses (c :: t) = [] := by
  simp [Rx.parses, h]

theorem mem_parses_seq_cls {p : Char → Bool} {r : Rx} {s : List Char}
    {x : Nat × List (List Char)} (hx : x ∈ (Rx.seq (.cls p) r).parses s) :
    ∃ c t, s = c :: t ∧ p c = true ∧ ∃ y ∈ r.parses t, x = (1 + y.1, y.2) := by
  cases s with
  | nil => simp [Rx.parses] at hx
  | cons c t =>
    by_cases h : p c = true
    · simp only [Rx.parses, h, List.mem_flatMap, List.mem_map] at hx
      obtain ⟨a, ha, y, hy, rfl⟩ := hx
      simp at ha; subst ha
      exact ⟨c, t, rfl, h, y, by simpa using hy, by simp⟩
    · simp [Rx.parses, h] at hx

theorem isDigit_of_decimal (nd : Char → Bool) {c : Char} (h : '0' ≤ c ∧ c ≤ '9') :
    isDigit nd c = true := by
  simp [isDigit, h.1, h.2]

theorem parses_flat (r : Rx) (hr : r.flat = true) :
    ∀ (s : List Char) x, x ∈ r.parses s → x.2 = [] := by
  induction r with
  | cls p =>
    intro s x hx
    cases s with
    | nil => simp [Rx.parses] at hx
    | cons c t =>
      simp only [Rx.parses] at hx
      split at hx
      · simp at hx; subst hx; rfl
      · simp at hx
  | star p =>
    intro s x hx
    simp only [Rx.parses, List.mem_map] at hx
    obtain ⟨n, _, rfl⟩ := hx; rfl
  | plus p =>
    intro s x hx
    simp only [Rx.parses, List.mem_map] at hx
    obtain ⟨n, _, rfl⟩ := hx; rfl
  | seq a b iha ihb =>
    intro s x hx
    simp only [Rx.flat, Bool.and_eq_true] at hr
    simp only [Rx.parses, List.mem_flatMap, List.mem_map] at hx
    obtain ⟨y, hy, z, hz, rfl⟩ := hx
    simp [iha hr.1 s y hy, ihb hr.2 _ z hz]
  | cap a _ => simp [Rx.flat] at hr
  | eos =>
    intro s x hx
    simp only [Rx.parses] at hx
    split at hx
    · simp at hx; subst hx; rfl
    · simp at hx

theorem mem_parses_cap {r : Rx} {s : List Char} {x : Nat × List (List Char)}
    (hx : x ∈ (Rx.cap r).parses s) : ∃ y ∈ r.parses s, x = (y.1, s.take y.1 :: y.2) := by
  simp only [Rx.parses, List.mem_map] at hx
  obtain ⟨y, hy, rfl⟩ := hx
  exact ⟨y, hy, rfl⟩

/-- The only capture of the first pattern is the matched text after its 7 leading
characters. -/
theorem rxMapped_caps (nd : Char → Bool) (s : List Char) (x : Nat × List (List Char))
    (hx : x ∈ (rxMapped nd).parses s) : x.2 = [(s.drop 7).take (x.1 - 7)] := by
  unfold rxMapped at hx
  obtain ⟨c1, t1, rfl, -, y1, hy1, rfl⟩ := mem_parses_seq_cls hx
  obtain ⟨c2, t2, rfl, -, y2, hy2, rfl⟩ := mem_parses_seq_cls hy1
  obtain ⟨c3, t3, rfl, -, y3, hy3, rfl⟩ := mem_parses_seq_cls hy2
  obtain ⟨c4, t4, rfl, -, y4, hy4, rfl⟩ := mem_parses_seq_cls hy3
  obtain ⟨c5, t5, rfl, -, y5, hy5, rfl⟩ := mem_parses_seq_cls hy4
  obtain ⟨c6, t6, rfl, -, y6, hy6, rfl⟩ := mem_parses_seq_cls hy5
  obtain ⟨c7, t7, rfl, -, y7, hy7, rfl⟩ := mem_parses_seq_cls hy6
  obtain ⟨z, hz, rfl⟩ := mem_parses_cap hy7
  have hflat := parses_flat (rxQuad nd) (by rfl) _ _ hz
  simp only [hflat, List.drop_succ_cons, List.drop_zero]
  congr 2
  omega

/-- The first pattern does not match a text that does not begin with a colon. -/
theorem rxMapped_no_match (nd : Char → Bool) (c : Char) (t : List Char) (hc : c ≠ ':') :
    matchAtStart (rxMapped nd) (c :: t) = none := by
  apply matchAtStart_of_nil
  unfold rxMapped
  exact parses_seq_cls_nil (by simp [isChar, hc])

theorem rxQuad_full (nd : Char → Bool) (a b c d : List Char) (x y z : Char)
    (ha : IsDecimal a) (hb : IsDecimal b) (hc : IsDecimal c) (hd : IsDecimal d) :
    ((a ++ x :: (b ++ y :: (c ++ z :: d))).length, []) ∈
      (rxQuad nd).parses (a ++ x :: (b ++ y :: (c ++ z :: d))) := by
  have dg : ∀ {l : List Char}, IsDecimal l → ∀ ch ∈ l, isDigit nd ch = true :=
    fun h ch hch => isDigit_of_decimal nd (h.2 ch hch)
  have h7 : (d.length, ([] : List (List Char))) ∈ (Rx.plus (isDigit nd)).parses d := by
    simpa using parses_plus_intro (t := []) hd.1 (dg hd)
  have h6 := parses_seq_cls_intro (p := anyChar) (c := z) (by rfl) h7
  have h5 := parses_seq_plus_intro hc.1 (dg hc) h6
  have h4 := parses_seq_cls_intro (p := anyChar) (c := y) (by rfl) h5
  have h3 := parses_seq_plus_intro hb.1 (dg hb) h4
  have h2 := parses_seq_cls_intro (p := anyChar) (c := x) (by rfl) h3
  have h1 := parses_seq_plus_intro ha.1 (dg ha) h2
  simpa [rxQuad] using h1

theorem rxMapped_intro (nd : Char → Bool) (g : List Char) (n : Nat)
    (caps : List (List Char)) (h : (n, caps) ∈ (Rx.cap (rxQuad nd)).parses g) :
    (n + 7, caps) ∈ (rxMapped nd).parses ("::ffff:".toList ++ g) := by
  have g7 := parses_seq_cls_intro (p := isChar ':') (c := ':') (by rfl) h
  have g6 := parses_seq_cls_intro (p := fun c => c == 'f' || c == 'F') (c := 'f') (by rfl) g7
  have g5 := parses_seq_cls_intro (p := fun c => c == 'f' || c == 'F') (c := 'f') (by rfl) g6
  have g4 := parses_seq_cls_intro (p := fun c => c == 'f' || c == 'F') (c := 'f') (by rfl) g5
  have g3 := parses_seq_cls_intro (p := fun c => c == 'f' || c == 'F') (c := 'f') (by rfl) g4
  have g2 := parses_seq_cls_intro (p := isChar ':') (c := ':') (by rfl) g3
  have g1 := parses_seq_cls_intro (p := isChar ':') (c := ':') (by rfl) g2
  exact g1

/-- The first pattern on `::ffff:` followed by four digit groups with one arbitrary
character between neighbours: the capture is everything after `::ffff:`. -/
theorem rxMapped_match (nd : Char → Bool) (a b c d : List Char) (x y z : Char)
    (ha : IsDecimal a) (hb : IsDecimal b) (hc : IsDecimal c) (hd : IsDecimal d) :
    matchAtStart (rxMapped nd) ("::ffff:".toList ++ (a ++ x :: (b ++ y :: (c ++ z :: d))))
      = some [a ++ x :: (b ++ y :: (c ++ z :: d))] := by
  apply matchAtStart_of_full
  · have h := parses_cap_intro (rxQuad_full nd a b c d x y z ha hb hc hd)
    rw [List.take_length] at h
    have h2 := rxMapped_intro nd _ _ _ h
    have e : ("::ffff:".toList ++ (a ++ x :: (b ++ y :: (c ++ z :: d)))).length
        = (a ++ x :: (b ++ y :: (c ++ z :: d))).length + 7 := by
      simp [String.toList]
    rw [e]; exact h2
  · intro p hp hlen
    rw [rxMapped_caps nd _ p hp, hlen]
    simp [String.toList]

theorem mem_parses_seq {a b : Rx} {s : List Char} {x : Nat × List (List Char)}
    (hx : x ∈ (Rx.seq a b).parses s) :
    ∃ y ∈ a.parses s, ∃ z ∈ b.parses (s.drop y.1), x = (y.1 + z.1, y.2 ++ z.2) := by
  simp only [Rx.parses, List.mem_flatMap, List.mem_map] at hx
  obtain ⟨y, hy, z, hz, rfl⟩ := hx
  exact ⟨y, hy, z, hz, rfl⟩

theorem mem_parses_eos {s : List Char} {x : Nat × List (List Char)}
    (hx : x ∈ Rx.eos.parses s) : s = [] ∧ x = (0, []) := by
  simp only [Rx.parses] at hx
  split at hx
  · rename_i h
    simp at hx
    exact ⟨by simpa using h, hx⟩
  · simp at hx

/-- A text with a single colon splits around it in one way only. -/
theorem split_colon_unique {h1 p1 h2 p2 : List Char}
    (e : h1 ++ ':' :: p1 = h2 ++ ':' :: p2) (hh : ':' ∉ h2) (hp : ':' ∉ p2) :
    h1 = h2 ∧ p1 = p2 := by
  rcases List.append_eq_append_iff.1 e with ⟨a, rfl, ha⟩ | ⟨c, rfl, hc⟩
  · cases a with
    | nil => simp at ha; simp [ha]
    | cons x xs =>
      simp at ha
      obtain ⟨rfl, -⟩ := ha
      simp at hh
  · cases c with
    | nil => simp at hc; simp [hc]
    | cons x xs =>
      simp at hc
      obtain ⟨rfl, rfl⟩ := hc
      simp at hp

theorem not_colon_of_decimal {p : List Char} (hp : IsDecimal p) : ':' ∉ p := by
  intro h
  have := (hp.2 _ h).2
  exact absurd this (by decide)

/-- The two captures of the second pattern on a text with a single colon are the
parts before and after the colon. -/
theorem rxHostPort_caps (nd : Char → Bool) (h p : List Char) (hh : ':' ∉ h) (hp : ':' ∉ p)
    (x : Nat × List (List Char)) (hx : x ∈ (rxHostPort nd).parses (h ++ ':' :: p)) :
    x.2 = [h, p] := by
  unfold rxHostPort at hx
  obtain ⟨y, hy, z, hz, rfl⟩ := mem_parses_seq hx
  obtain ⟨w, hw, rfl⟩ := mem_parses_cap hy
  have hwf := parses_flat _ (by rfl) _ _ hw
  obtain ⟨c, t, hct, hc, u, hu, rfl⟩ := mem_parses_seq_cls hz
  obtain ⟨v, hv, e, he, rfl⟩ := mem_parses_seq hu
  obtain ⟨q, hq, rfl⟩ := mem_parses_cap hv
  have hqf := parses_flat (Rx.plus (isDigit nd)) (by rfl) _ _ hq
  obtain ⟨hnil, rfl⟩ := mem_parses_eos he
  have hc' : c = ':' := by simpa [isChar] using hc
  subst hc'
  simp only at hct hnil
  have htake : t.take q.1 = t := by
    have := List.take_append_drop q.1 t
    rw [hnil] at this; simpa using this
  have hs := List.take_append_drop w.1 (h ++ ':' :: p)
  rw [hct] at hs
  obtain ⟨e1, e2⟩ := split_colon_unique hs hh hp
  subst e2
  simp only [hwf, hqf, htake, e1, List.cons_append, List.nil_append, List.append_nil]

theorem rxHostPort_full (nd : Char → Bool) (h p : List Char) (hne : h ≠ []) (hh : ':' ∉ h)
    (hp : IsDecimal p) :
    ((h ++ ':' :: p).length, [h, p]) ∈ (rxHostPort nd).parses (h ++ ':' :: p) := by
  obtain ⟨h', l, rfl⟩ : ∃ h' l, h = h' ++ [l] :=
    ⟨h.dropLast, h.getLast hne, (List.dropLast_append_getLast hne).symm⟩
  have hl : l ≠ ':' := by
    intro hl; apply hh; simp [hl]
  have a1 : (h'.length, ([] : List (List Char))) ∈
      (Rx.star anyChar).parses (h' ++ [l] ++ ':' :: p) := by
    simp only [Rx.parses, List.mem_map, List.mem_reverse, List.mem_range]
    refine ⟨h'.length, ?_, rfl⟩
    have : List.takeWhile anyChar (h' ++ [l] ++ ':' :: p) = h' ++ [l] ++ ':' :: p :=
      List.takeWhile_eq_self_iff.2 (fun _ _ => rfl)
    rw [this]; simp; omega
  have a2 : (1, ([] : List (List Char))) ∈
      (Rx.cls fun c => c != ':').parses ((h' ++ [l] ++ ':' :: p).drop h'.length) := by
    have : (h' ++ [l] ++ ':' :: p).drop h'.length = l :: ':' :: p := by simp
    rw [this]
    exact parses_cls_intro (by simp [hl])
  have a3 := parses_cap_intro (parses_seq_intro a1 a2)
  have b1 : (p.length, ([] : List (List Char))) ∈ (Rx.plus (isDigit nd)).parses p := by
    simpa using parses_plus_intro (t := [])
      hp.1 (fun ch hch => isDigit_of_decimal nd (hp.2 ch hch))
  have b2 := parses_cap_intro b1
  have b3 : ((0 : Nat), ([] : List (List Char))) ∈ Rx.eos.parses (p.drop p.length) := by
    simp [Rx.parses]
  have b4 := parses_seq_cls_intro (p := isChar ':') (c := ':') (by rfl) (parses_seq_intro b2 b3)
  have e : (h' ++ [l] ++ ':' :: p).drop (h'.length + 1) = ':' :: p := by
    have : List.drop (h'.length + 1) ((h' ++ [l]) ++ ':' :: p) = ':' :: p :=
      List.drop_left' (by simp)
    simp [this]
  have c1 := parses_seq_intro (b := .seq (.cls (isChar ':')) (.seq (.cap (.plus (isDigit nd))) .eos))
    a3 (by simpa [e] using b4)
  unfold rxHostPort
  convert c1 using 2
  · simp; omega
  · simp
    have : List.take (h'.length + 1) ((h' ++ [l]) ++ ':' :: p) = h' ++ [l] :=
      List.take_left' (by simp)
    simpa using this.symm

/-- The second pattern on `h:p`, with `h` non-empty and free of colons and `p` a
decimal digit string: the captures are `h` and `p`. -/
theorem rxHostPort_match (nd : Char → Bool) (h p : List Char) (hne : h ≠ []) (hh : ':' ∉ h)
    (hp : IsDecimal p) :
    matchAtStart (rxHostPort nd) (h ++ ':' :: p) = some [h, p] :=
  matchAtStart_of_full (rxHostPort_full nd h p hne hh hp)
    (fun x hx _ => rxHostPort_caps nd h p hh (not_colon_of_decimal hp) x hx)

theorem foldl_decimal (p : List Char) (acc : Nat) :
    p.foldl (fun acc c => 10 * acc + (c.toNat - 48)) acc
      = acc * 10 ^ p.length + decimalValue p := by
  induction p generalizing acc with
  | nil => simp [decimalValue]
  | cons c cs ih =>
    simp only [List.foldl_cons, ih, decimalValue, List.reverse_cons, List.map_append,
      List.map_cons, List.map_nil, Nat.ofDigits_append, List.length_map, List.length_reverse,
      List.length_cons, Nat.ofDigits_singleton]
    ring

/-- The model of `QString::toInt` returns the decimal value of a digit string that
fits an `int`. -/
theorem toInt_decimal (p : List Char) (hp : IsDecimal p) (hv : decimalValue p ≤ 2147483647) :
    toInt p = (decimalValue p : Int) := by
  have hall : (p.all fun c => decide ('0' ≤ c) && decide (c ≤ '9')) = true := by
    simp only [List.all_eq_true, Bool.and_eq_true, decide_eq_true_eq]
    exact hp.2
  have hf := foldl_decimal p 0
  simp only [Nat.zero_mul, Nat.zero_add] at hf
  simp [toInt, hp.1, hall, hf, hv]

theorem count_colon (h p : List Char) (hh : ':' ∉ h) (hp : ':' ∉ p) :
    (h ++ ':' :: p).count ':' = 1 := by
  simp [List.count_append, List.count_eq_zero_of_not_mem hh, List.count_eq_zero_of_not_mem hp]

theorem rxMapped_loopback (nd : Char → Bool) :
    matchAtStart (rxMapped nd) "::1".toList = none := by
  apply matchAtStart_of_nil
  simp [rxMapped, Rx.parses, isChar, String.toList]

theorem setHost_mapped (nd : Char → Bool) (conn : VeyonVncConnection) (a b c d : List Char)
    (x y z : Char) (ha : IsDecimal a) (hb : IsDecimal b) (hc : IsDecimal c) (hd : IsDecimal d) :
    setHost nd ("::ffff:".toList ++ (a ++ x :: (b ++ y :: (c ++ z :: d)))) conn
      = { conn with m_host := a ++ x :: (b ++ y :: (c ++ z :: d)) } := by
  simp only [setHost, rxMapped_match nd a b c d x y z ha hb hc hd, cap]
  rfl

theorem setHost_loopback (nd : Char → Bool) (conn : VeyonVncConnection) :
    setHost nd "::1".toList conn = { conn with m_host := "127.0.0.1".toList } := by
  simp only [setHost, rxMapped_loopback nd]
  rfl

theorem setHost_hostPort (nd : Char → Bool) (conn : VeyonVncConnection) (h p : List Char)
    (hne : h ≠ []) (hh : ':' ∉ h) (hp : IsDecimal p) :
    setHost nd (h ++ ':' :: p) conn = { conn with m_host := h, m_port := toInt p } := by
  obtain ⟨c, t, rfl⟩ := List.exists_cons_of_ne_nil hne
  have hc : c ≠ ':' := by
    intro e; apply hh; simp [e]
  have h1 : matchAtStart (rxMapped nd) (c :: t ++ ':' :: p) = none :=
    rxMapped_no_match nd c _ hc
  have h2 : ¬ (c :: t ++ ':' :: p = "::1".toList) := by
    intro e
    simp [String.toList] at e
    exact hc e.1
  have h3 := count_colon (c :: t) p hh (not_colon_of_decimal hp)
  have h4 := rxHostPort_match nd (c :: t) p hne hh hp
  simp only [setHost, h1, h2, h3, h4, if_true, if_false, cap]
  rfl

/-- C1. `setHost` normalises its argument: `::ffff:a.b.c.d` with decimal groups is
stored as `a.b.c.d` and the port is kept; `::1` is stored as `127.0.0.1` and the port
is kept; `h:p` with `h` non-empty and free of colons and `p` a decimal string whose
value fits a signed 32-bit integer is stored as host `h` and port `p`. -/
theorem setHost_normalises (nd : Char → Bool) (conn : VeyonVncConnection) :
    (∀ a b c d : List Char, IsDecimal a → IsDecimal b → IsDecimal c → IsDecimal d →
      (setHost nd ("::ffff:".toList ++ (a ++ '.' :: (b ++ '.' :: (c ++ '.' :: d)))) conn).m_host
          = a ++ '.' :: (b ++ '.' :: (c ++ '.' :: d)) ∧
      (setHost nd ("::ffff:".toList ++ (a ++ '.' :: (b ++ '.' :: (c ++ '.' :: d)))) conn).m_port
          = conn.m_port) ∧
    ((setHost nd "::1".toList conn).m_host = "127.0.0.1".toList ∧
      (setHost nd "::1".toList conn).m_port = conn.m_port) ∧
    (∀ h p : List Char, h ≠ [] → ':' ∉ h → IsDecimal p → decimalValue p ≤ 2147483647 →
      (setHost nd (h ++ ':' :: p) conn).m_host = h ∧
      (setHost nd (h ++ ':' :: p) conn).m_port = (decimalValue p : Int)) := by
  refine ⟨?_, ?_, ?_⟩
  · intro a b c d ha hb hc hd
    rw [setHost_mapped nd conn a b c d '.' '.' '.' ha hb hc hd]
    exact ⟨rfl, rfl⟩
  · rw [setHost_loopback]
    exact ⟨rfl, rfl⟩
  · intro h p hne hh hp hv
    rw [setHost_hostPort nd conn h p hne hh hp]
    exact ⟨rfl, toInt_decimal p hp hv⟩

/-- C1, on the inputs named by the specification: `::ffff:192.0.2.5` is stored as
`192.0.2.5` with the port kept, and `example.com:5901` as host `example.com`, port 5901. -/
theorem setHost_normalises_witness :
    ((setHost (fun _ => false) "::ffff:192.0.2.5".toList (VeyonVncConnection.new false)).m_host
        = "192.0.2.5".toList ∧
      (setHost (fun _ => false) "::ffff:192.0.2.5".toList (VeyonVncConnection.new false)).m_port = -1) ∧
    ((setHost (fun _ => false) "example.com:5901".toList (VeyonVncConnection.new false)).m_host
        = "example.com".toList ∧
      (setHost (fun _ => false) "example.com:5901".toList (VeyonVncConnection.new false)).m_port = 5901) :=
  ⟨(setHost_normalises (fun _ => false) (VeyonVncConnection.new false)).1
      "192".toList "0".toList "2".toList "5".toList
      (by decide) (by decide) (by decide) (by decide),
   (setHost_normalises (fun _ => false) (VeyonVncConnection.new false)).2.2
      "example.com".toList "5901".toList (by decide) (by decide) (by decide) (by decide)⟩

/-- C2. The host stored by `setHost` need not be a fixed point: whatever the digit
table, `::ffff:1.2.3:4` is stored as `1.2.3:4`, and setting that host again stores
`1.2.3` (and port 4). -/
theorem setHost_not_idempotent (nd : Char → Bool) (conn : VeyonVncConnection) :
    (setHost nd "::ffff:1.2.3:4".toList conn).m_host = "1.2.3:4".toList ∧
    (setHost nd (setHost nd "::ffff:1.2.3:4".toList conn).m_host conn).m_host
      = "1.2.3".toList ∧
    (setHost nd (setHost nd "::ffff:1.2.3:4".toList conn).m_host conn).m_port = 4 := by
  have h1 := setHost_mapped nd conn "1".toList "2".toList "3".toList "4".toList '.' '.' ':'
    (by decide) (by decide) (by decide) (by decide)
  have h2 := setHost_hostPort nd conn "1.2.3".toList "4".toList (by decide) (by decide)
    (by decide)
  have e1 : "::ffff:".toList ++ ("1".toList ++ '.' :: ("2".toList ++ '.' ::
      ("3".toList ++ ':' :: "4".toList))) = "::ffff:1.2.3:4".toList := by decide
  have e2 : "1.2.3".toList ++ ':' :: "4".toList = "1.2.3:4".toList := by decide
  have e3 : "1".toList ++ '.' :: ("2".toList ++ '.' :: ("3".toList ++ ':' :: "4".toList))
      = "1.2.3:4".toList := by decide
  have e4 : toInt "4".toList = 4 := by decide
  rw [e1, e3] at h1
  rw [e2, e4] at h2
  rw [h1]
  refine ⟨rfl, ?_, ?_⟩
  · show (setHost nd "1.2.3:4".toList conn).m_host = _
    rw [h2]
  · show (setHost nd "1.2.3:4".toList conn).m_port = _
    rw [h2]

/-! ## Lemmas on the event queue and the worker loop -/

/-! ### The event queue -/

@[simp] theorem enqueueEvent_m_state (e : MessageEvent) (c : VeyonVncConnection) :
    (enqueueEvent e c).m_state = c.m_state := by
  unfold enqueueEvent; split <;> rfl

@[simp] theorem enqueueEvent_stateChanged (e : MessageEvent) (c : VeyonVncConnection) :
    (enqueueEvent e c).stateChanged = c.stateChanged := by
  unfold enqueueEvent; split <;> rfl

@[simp] theorem enqueueEvent_sent (e : MessageEvent) (c : VeyonVncConnection) :
    (enqueueEvent e c).sent = c.sent := by
  unfold enqueueEvent; split <;> rfl

@[simp] theorem enqueueEvent_m_cl (e : MessageEvent) (c : VeyonVncConnection) :
    (enqueueEvent e c).m_cl = c.m_cl := by
  unfold enqueueEvent; split <;> rfl

@[simp] theorem enqueueEvent_slept (e : MessageEvent) (c : VeyonVncConnection) :
    (enqueueEvent e c).slept = c.slept := by
  unfold enqueueEvent; split <;> rfl

@[simp] theorem enqueueEvent_newClient (e : MessageEvent) (c : VeyonVncConnection) :
    (enqueueEvent e c).newClient = c.newClient := by
  unfold enqueueEvent; split <;> rfl

@[simp] theorem enqueueEvent_interval (e : MessageEvent) (c : VeyonVncConnection) :
    (enqueueEvent e c).m_framebufferUpdateInterval = c.m_framebufferUpdateInterval := by
  unfold enqueueEvent; split <;> rfl

@[simp] theorem enqueueEvent_serviceReachable (e : MessageEvent) (c : VeyonVncConnection) :
    (enqueueEvent e c).m_serviceReachable = c.m_serviceReachable := by
  unfold enqueueEvent; split <;> rfl

@[simp] theorem enqueueEvent_framebufferState (e : MessageEvent) (c : VeyonVncConnection) :
    (enqueueEvent e c).m_framebufferState = c.m_framebufferState := by
  unfold enqueueEvent; split <;> rfl

@[simp] theorem enqueueEvent_clock (e : MessageEvent) (c : VeyonVncConnection) :
    (enqueueEvent e c).clock = c.clock := by
  unfold enqueueEvent; split <;> rfl

/-- Enqueueing a list of events while `Connected` appends the list. -/
theorem enqueue_list_connected (es : List MessageEvent) (c : VeyonVncConnection)
    (h : c.m_state = .Connected) :
    es.foldl (fun c e => enqueueEvent e c) c = { c with m_eventQueue := c.m_eventQueue ++ es } := by
  induction es generalizing c with
  | nil => simp
  | cons e es ih =>
    have h1 : enqueueEvent e c = { c with m_eventQueue := c.m_eventQueue ++ [e] } := by
      simp [enqueueEvent, h]
    rw [List.foldl_cons, h1,
      ih { c with m_eventQueue := c.m_eventQueue ++ [e] } h]
    simp

/-- What a list of `enqueueEvent` calls leaves of the object: everything but the queue,
which grows at its tail. -/
theorem enqueue_list_frame (es : List MessageEvent) (c : VeyonVncConnection) :
    ∃ late, es.foldl (fun c e => enqueueEvent e c) c
      = { c with m_eventQueue := c.m_eventQueue ++ late } := by
  induction es generalizing c with
  | nil => exact ⟨[], by simp⟩
  | cons e es ih =>
    rw [List.foldl_cons]
    by_cases h : c.m_state = .Connected
    · have h1 : enqueueEvent e c = { c with m_eventQueue := c.m_eventQueue ++ [e] } := by
        simp [enqueueEvent, h]
      obtain ⟨late, hl⟩ := ih (enqueueEvent e c)
      refine ⟨e :: late, ?_⟩
      rw [hl, h1]; simp
    · have h1 : enqueueEvent e c = c := by simp [enqueueEvent, h]
      rw [h1]; exact ih c

theorem tick_frame (w : World) (c : VeyonVncConnection) :
    ∃ late, tick w c = { c with m_eventQueue := c.m_eventQueue ++ late, clock := c.clock + 1 } := by
  obtain ⟨late, h⟩ := enqueue_list_frame (w.enqueueEvent c.clock) { c with clock := c.clock + 1 }
  exact ⟨late, by rw [tick, h]⟩

@[simp] theorem tick_m_state (w : World) (c : VeyonVncConnection) :
    (tick w c).m_state = c.m_state := by
  obtain ⟨l, h⟩ := tick_frame w c; rw [h]

@[simp] theorem tick_stateChanged (w : World) (c : VeyonVncConnection) :
    (tick w c).stateChanged = c.stateChanged := by
  obtain ⟨l, h⟩ := tick_frame w c; rw [h]

@[simp] theorem tick_sent (w : World) (c : VeyonVncConnection) :
    (tick w c).sent = c.sent := by
  obtain ⟨l, h⟩ := tick_frame w c; rw [h]

@[simp] theorem tick_m_cl (w : World) (c : VeyonVncConnection) :
    (tick w c).m_cl = c.m_cl := by
  obtain ⟨l, h⟩ := tick_frame w c; rw [h]

@[simp] theorem tick_slept (w : World) (c : VeyonVncConnection) :
    (tick w c).slept = c.slept := by
  obtain ⟨l, h⟩ := tick_frame w c; rw [h]

@[simp] theorem tick_newClient (w : World) (c : VeyonVncConnection) :
    (tick w c).newClient = c.newClient := by
  obtain ⟨l, h⟩ := tick_frame w c; rw [h]

@[simp] theorem tick_interval (w : World) (c : VeyonVncConnection) :
    (tick w c).m_framebufferUpdateInterval = c.m_framebufferUpdateInterval := by
  obtain ⟨l, h⟩ := tick_frame w c; rw [h]

@[simp] theorem tick_serviceReachable (w : World) (c : VeyonVncConnection) :
    (tick w c).m_serviceReachable = c.m_serviceReachable := by
  obtain ⟨l, h⟩ := tick_frame w c; rw [h]

@[simp] theorem tick_framebufferState (w : World) (c : VeyonVncConnection) :
    (tick w c).m_framebufferState = c.m_framebufferState := by
  obtain ⟨l, h⟩ := tick_frame w c; rw [h]

@[simp] theorem tick_clock (w : World) (c : VeyonVncConnection) :
    (tick w c).clock = c.clock + 1 := by
  obtain ⟨l, h⟩ := tick_frame w c; rw [h]

theorem tick_quiet (w : World) (hq : ∀ t, w.enqueueEvent t = []) (c : VeyonVncConnection) :
    tick w c = { c with clock := c.clock + 1 } := by
  simp [tick, hq]

/-- The general order property of `sendEvents`: what has been sent, followed by what is
still queued, is what had been sent, followed by what was queued and by what other
threads enqueued meanwhile. -/
theorem sendEvents_order (w : World) (fuel : Nat) (c : VeyonVncConnection) :
    ∃ late,
      (sendEvents w fuel c).conn.sent
          ++ (sendEvents w fuel c).conn.m_eventQueue.map (fun e => (c.m_cl, e.fire))
        = c.sent ++ (c.m_eventQueue ++ late).map (fun e => (c.m_cl, e.fire)) ∧
      ((sendEvents w fuel c).isReturned = true → (sendEvents w fuel c).conn.m_eventQueue = []) := by
  induction fuel generalizing c with
  | zero => exact ⟨[], by simp [sendEvents, Outcome.conn, Outcome.isReturned]⟩
  | succ n ih =>
    cases hq : c.m_eventQueue with
    | nil =>
      refine ⟨[], ?_⟩
      simp [sendEvents, hq, Outcome.conn, Outcome.isReturned]
    | cons e rest =>
      obtain ⟨late1, h1⟩ := tick_frame w { c with m_eventQueue := rest }
      obtain ⟨late2, h2, h3⟩ := ih
        { tick w { c with m_eventQueue := rest } with
          sent := (tick w { c with m_eventQueue := rest }).sent
            ++ [((tick w { c with m_eventQueue := rest }).m_cl, e.fire)] }
      refine ⟨late1 ++ late2, ?_, ?_⟩
      · simp only [sendEvents, hq]
        simp only [tick_m_cl, tick_sent] at h2 ⊢
        rw [h2, h1]
        simp
      · simp only [sendEvents, hq]
        exact h3

/-- With no other thread enqueueing, `sendEvents` returns after one iteration per queued
event, having sent the events in queue order on the current handle. -/
theorem sendEvents_quiet (w : World) (hq : ∀ t, w.enqueueEvent t = [])
    (q : List MessageEvent) (c : VeyonVncConnection) (n : Nat) :
    sendEvents w (q.length + 1 + n) { c with m_eventQueue := q }
      = .returned ()
          { c with m_eventQueue := [], sent := c.sent ++ q.map (fun e => (c.m_cl, e.fire)),
                   clock := c.clock + q.length } := by
  induction q generalizing c with
  | nil => simp [sendEvents, Nat.add_comm]
  | cons e rest ih =>
    have e1 : (e :: rest).length + 1 + n = (rest.length + 1 + n) + 1 := by simp; omega
    rw [e1]
    simp only [sendEvents, tick_quiet w hq]
    have := ih { c with sent := c.sent ++ [(c.m_cl, e.fire)], clock := c.clock + 1 }
    simp only at this
    rw [this]
    simp
    omega

/-! ### Notifications -/

theorem SameNotifications.rfl' (c : VeyonVncConnection) : SameNotifications c c := ⟨rfl, rfl⟩

theorem SameNotifications.trans {a b c : VeyonVncConnection} (h1 : SameNotifications a b)
    (h2 : SameNotifications b c) : SameNotifications a c :=
  ⟨h2.1.trans h1.1, h2.2.trans h1.2⟩

theorem tick_same (w : World) (c : VeyonVncConnection) : SameNotifications c (tick w c) :=
  ⟨tick_m_state w c, tick_stateChanged w c⟩

@[simp] theorem setState_m_state (s : State) (c : VeyonVncConnection) :
    (setState s c).m_state = s := by
  unfold setState
  split
  · rfl
  · rename_i h; simp at h; exact h.symm

theorem setState_notified {R : State → State → Prop} {seed : List State} (s : State)
    (c : VeyonVncConnection) (h : Notified R seed c)
    (hR : seed ++ c.stateChanged ≠ [] → s ≠ c.m_state → R c.m_state s) :
    Notified R seed (setState s c) := by
  unfold setState
  split
  · rename_i hne
    refine ⟨?_, ?_⟩
    · show List.Chain' R (seed ++ (c.stateChanged ++ [s]))
      rw [← List.append_assoc, List.chain'_append]
      refine ⟨h.1, List.chain'_singleton s, ?_⟩
      intro x hx y hy
      simp at hy
      subst hy
      have hx' := h.2 x hx
      subst hx'
      apply hR _ hne
      intro hnil
      rw [hnil] at hx
      simp at hx
    · intro x hx
      have hx' : x ∈ ((seed ++ c.stateChanged) ++ [s]).getLast? := by
        rw [List.append_assoc]; exact hx
      simp at hx'
      exact hx'.symm
  · exact h

theorem callbacks_same (cbs : List Callback) (c : VeyonVncConnection) :
    SameNotifications c (cbs.foldl (fun c cb => cb.run c) c) := by
  induction cbs generalizing c with
  | nil => exact ⟨rfl, rfl⟩
  | cons cb cbs ih =>
    rw [List.foldl_cons]
    refine SameNotifications.trans ?_ (ih _)
    cases cb
    · exact ⟨rfl, rfl⟩
    · simp only [Callback.run, finishFrameBufferUpdate]
      split <;> exact ⟨rfl, rfl⟩

theorem sendEvents_same (w : World) (fuel : Nat) (c : VeyonVncConnection) :
    SameNotifications c (sendEvents w fuel c).conn := by
  induction fuel generalizing c with
  | zero => exact ⟨rfl, rfl⟩
  | succ n ih =>
    simp only [sendEvents]
    split
    · exact ⟨rfl, rfl⟩
    · refine SameNotifications.trans ?_ (ih _)
      exact ⟨by simp, by simp⟩

theorem connectAttempt_same (w : World) (c : VeyonVncConnection) :
    SameNotifications c (connectAttempt w c).2 := by
  simp only [connectAttempt, hookPrepareAuthentication, hookInitFrameBuffer]
  split <;> split <;> exact ⟨by simp, by simp⟩

theorem handleMessages_same (w : World) (fuel : Nat) (c : VeyonVncConnection) :
    SameNotifications c (handleMessages w fuel c).conn := by
  induction fuel generalizing c with
  | zero => exact ⟨rfl, rfl⟩
  | succ n ih =>
    simp only [handleMessages]
    have h1 : SameNotifications c
        (List.foldl (fun c cb => cb.run c) (tick w c) (w.handleRFBServerMessage c.clock).callbacks) :=
      (tick_same w c).trans (callbacks_same _ _)
    split
    · split
      · exact (h1.trans (tick_same w _)).trans (ih _)
      · exact h1.trans (tick_same w _)
    · exact h1

theorem requestUpdate_same (w : World) (c c' : VeyonVncConnection)
    (h : requestUpdate w c = some c') : SameNotifications c c' := by
  unfold requestUpdate at h
  split at h
  · simp only at h
    split at h
    · simp at h
    · simp at h; subst h; exact ⟨by simp, by simp⟩
  · simp at h; subst h; exact ⟨rfl, rfl⟩
  · simp at h; subst h; exact ⟨rfl, rfl⟩

theorem waitUpdateInterval_same (w : World) (c : VeyonVncConnection) :
    SameNotifications c (waitUpdateInterval w c) := by
  unfold waitUpdateInterval
  simp only
  split
  · split
    · exact ⟨by simp, by simp⟩
    · exact ⟨by simp, by simp⟩
  · exact ⟨by simp, by simp⟩

theorem handleConnectionLoop_same (w : World) (fuel : Nat) (c : VeyonVncConnection) :
    SameNotifications c (handleConnectionLoop w fuel c).conn := by
  induction fuel generalizing c with
  | zero => exact ⟨rfl, rfl⟩
  | succ n ih =>
    simp only [handleConnectionLoop]
    split
    · exact tick_same w c
    · have h3 : SameNotifications c (tick w (tick w (tick w c))) :=
        ((tick_same w c).trans (tick_same w _)).trans (tick_same w _)
      split
      · exact h3
      · have h4 : SameNotifications c
            (if w.waitForMessage (tick w c).clock ≠ 0 then
              handleMessages w n (tick w (tick w (tick w c)))
             else Outcome.returned true (tick w (tick w (tick w c)))).conn := by
          split
          · exact h3.trans (handleMessages_same w n _)
          · exact h3
        split
        · rename_i c1 hc1
          rw [hc1] at h4; exact h4
        · rename_i c1 hc1
          rw [hc1] at h4; exact h4
        · rename_i c1 hc1
          rw [hc1] at h4
          have h4 : SameNotifications c c1 := h4
          split
          · exact h4
          · rename_i c2 hc2
            have h5 := h4.trans (requestUpdate_same w c1 c2 hc2)
            have h6 := h5.trans (sendEvents_same w n c2)
            split
            · rename_i c3 hc3
              rw [hc3] at h6; exact h6
            · rename_i u c3 hc3
              rw [hc3] at h6
              exact (h6.trans (waitUpdateInterval_same w c3)).trans (ih _)

theorem handleConnection_same (w : World) (fuel : Nat) (c : VeyonVncConnection) :
    SameNotifications c (handleConnection w fuel c).conn := by
  have h := handleConnectionLoop_same w fuel c
  unfold handleConnection
  split
  · rename_i c1 hc1; rw [hc1] at h; exact h
  · rename_i c1 hc1; rw [hc1] at h; exact h
  · rename_i c1 hc1; rw [hc1] at h
    exact SameNotifications.trans h (sendEvents_same w fuel c1)

theorem Notified.of_same {R : State → State → Prop} {seed : List State}
    {c c' : VeyonVncConnection}
    (h : Notified R seed c) (hs : SameNotifications c c') : Notified R seed c' := by
  unfold Notified at *
  rw [hs.1, hs.2]; exact h

theorem stepOrder_to_disconnected (p : State) (h : State.Disconnected ≠ p) :
    stepOrder p .Disconnected := by
  refine ⟨fun e => h e.symm, ?_, ?_, ?_⟩
  · intro e; cases e
  · intro _; rfl
  · intro e; simp [State.isFailure] at e

theorem stepOrder_connect (p q : State) (hp : p = .Connecting ∨ p.isFailure = true)
    (h : q ≠ p) : stepOrder p q := by
  refine ⟨fun e => h e.symm, fun _ => hp, ?_, fun _ => hp⟩
  intro e
  subst e
  rcases hp with hp | hp
  · cases hp
  · simp [State.isFailure] at hp

/-- The branch after a failed `rfbInitClient` keeps the log consistent and ends in a
failure state. -/
theorem connectionFailed_mid (w : World) (seed : List State) (c : VeyonVncConnection)
    (hn : Notified stepOrder seed c) (hm : c.m_state = .Connecting ∨ c.m_state.isFailure = true) :
    Notified stepOrder seed (connectionFailed w c).1 ∧ (connectionFailed w c).1.m_state.isFailure = true := by
  have key : ∀ (s : State) (c' : VeyonVncConnection), s.isFailure = true →
      SameNotifications c c' →
      Notified stepOrder seed (setState s c') ∧ (setState s c').m_state.isFailure = true := by
    intro s c' hs hc
    refine ⟨setState_notified s c' (hn.of_same hc) ?_, by simpa using hs⟩
    intro _ hne
    rw [hc.1]
    exact stepOrder_connect _ _ hm (by rw [← hc.1]; exact hne)
  have fin : ∀ c1 : VeyonVncConnection,
      Notified stepOrder seed c1 ∧ c1.m_state.isFailure = true →
      Notified stepOrder seed
        (if w.isInterruptionRequested c1.clock = true then (tick w c1, true)
         else (tick w { tick w c1 with slept := (tick w c1).slept ++ [retryTimeout (tick w c1)] },
           false)).1 ∧
      (if w.isInterruptionRequested c1.clock = true then (tick w c1, true)
         else (tick w { tick w c1 with slept := (tick w c1).slept ++ [retryTimeout (tick w c1)] },
           false)).1.m_state.isFailure = true := by
    intro c1 h1
    split
    · exact ⟨h1.1.of_same (tick_same w c1), by simpa using h1.2⟩
    · refine ⟨h1.1.of_same ⟨by simp, by simp⟩, by simpa using h1.2⟩
  unfold connectionFailed
  simp only
  apply fin
  split
  · split
    · exact key _ _ rfl ⟨by simp, by simp⟩
    · exact key _ _ rfl ⟨by simp, by simp⟩
  · split
    · exact key _ _ rfl ⟨rfl, rfl⟩
    · exact key _ _ rfl ⟨rfl, rfl⟩

theorem establishConnectionLoop_mid (w : World) (seed : List State) (fuel : Nat)
    (c : VeyonVncConnection) (hn : Notified stepOrder seed c)
    (hm : c.m_state = .Connecting ∨ c.m_state.isFailure = true ∨ c.m_state = .Connected) :
    Notified stepOrder seed (establishConnectionLoop w fuel c).conn ∧
    ((establishConnectionLoop w fuel c).conn.m_state = .Connecting ∨
      (establishConnectionLoop w fuel c).conn.m_state.isFailure = true ∨
      (establishConnectionLoop w fuel c).conn.m_state = .Connected) := by
  induction fuel generalizing c with
  | zero => exact ⟨hn, hm⟩
  | succ n ih =>
    simp only [establishConnectionLoop]
    split
    · rename_i hcond
      simp only [Bool.and_eq_true, bne_iff_ne, ne_eq, tick_m_state] at hcond
      have hm' : c.m_state = .Connecting ∨ c.m_state.isFailure = true := by
        rcases hm with h | h | h
        · exact Or.inl h
        · exact Or.inr h
        · exact absurd h hcond.2
      have hs : SameNotifications c (connectAttempt w (tick w c)).2 :=
        (tick_same w c).trans (connectAttempt_same w _)
      split
      · rename_i c1 hc1
        rw [hc1] at hs
        have hs : SameNotifications c c1 := hs
        apply ih
        · apply setState_notified _ _ (hn.of_same hs)
          intro _ hne
          rw [hs.1] at hne ⊢
          exact stepOrder_connect _ _ hm' hne
        · right; right; simp
      · rename_i c1 hc1
        rw [hc1] at hs
        have hs : SameNotifications c c1 := hs
        have hf := connectionFailed_mid w seed c1 (hn.of_same hs) (by rw [hs.1]; exact hm')
        split
        · rename_i c2 hc2
          rw [hc2] at hf; exact ⟨hf.1, Or.inr (Or.inl hf.2)⟩
        · rename_i c2 hc2
          rw [hc2] at hf
          exact ih c2 hf.1 (Or.inr (Or.inl hf.2))
    · exact ⟨hn.of_same (tick_same w c), by simpa [Outcome.conn] using hm⟩

/-- The worker loop keeps the notification log consistent with the step order, when it
starts with an empty log or in state `Disconnected`. -/
theorem run_notified (w : World) (seed : List State) (fuel : Nat) (c : VeyonVncConnection)
    (hn : Notified stepOrder seed c)
    (hh : seed ++ c.stateChanged ≠ [] → c.m_state = .Disconnected) :
    Notified stepOrder seed (run w fuel c).conn := by
  induction fuel generalizing c with
  | zero => exact hn
  | succ n ih =>
    simp only [run]
    have ht := tick_same w c
    split
    · apply setState_notified _ _ (hn.of_same ht)
      intro hne hd
      rw [ht.2] at hne
      rw [ht.1, hh hne] at hd
      exact absurd rfl hd
    · have h1 : Notified stepOrder seed (setState .Connecting (tick w c)) := by
        apply setState_notified _ _ (hn.of_same ht)
        intro hne hd
        rw [ht.2] at hne
        rw [ht.1, hh hne]
        refine ⟨by decide, ?_, ?_, ?_⟩
        · intro e; cases e
        · intro e; cases e
        · intro e; simp [State.isFailure] at e
      have h2 := establishConnectionLoop_mid w seed n
        { setState .Connecting (tick w c) with m_framebufferState := .FramebufferInvalid }
        (h1.of_same ⟨rfl, rfl⟩) (Or.inl (by simp))
      have h2 : Notified stepOrder seed (establishConnection w n (tick w c)).conn ∧ _ := h2
      split
      · rename_i c1 hc1
        rw [hc1] at h2; exact h2.1
      · rename_i u c1 hc1
        rw [hc1] at h2
        have h3 := handleConnection_same w n c1
        split
        · rename_i c2 hc2
          rw [hc2] at h3
          exact h2.1.of_same h3
        · rename_i u2 c2 hc2
          rw [hc2] at h3
          have h3 : SameNotifications c1 c2 := h3
          have h4 : SameNotifications c2
              (if c2.m_cl.isSome = true then tick w { c2 with m_cl := none } else c2) := by
            split
            · exact ⟨by simp, by simp⟩
            · exact ⟨rfl, rfl⟩
          apply ih
          · unfold closeConnection
            apply setState_notified _ _ ((h2.1.of_same h3).of_same h4)
            intro _ hd
            exact stepOrder_to_disconnected _ hd
          · intro _
            simp [closeConnection]

/-- C3. In every state other than `Connected`, `enqueueEvent` leaves the object, and so
the event queue, as it is; in state `Connected` it appends the event at the tail of the
queue. -/
theorem enqueueEvent_only_when_connected (e : MessageEvent) (c : VeyonVncConnection) :
    (c.m_state ≠ .Connected →
      enqueueEvent e c = c ∧ (enqueueEvent e c).m_eventQueue.length = c.m_eventQueue.length) ∧
    (c.m_state = .Connected → (enqueueEvent e c).m_eventQueue = c.m_eventQueue ++ [e]) := by
  refine ⟨fun h => ?_, fun h => ?_⟩
  · have : enqueueEvent e c = c := by simp [enqueueEvent, h]
    rw [this]; exact ⟨rfl, rfl⟩
  · simp [enqueueEvent, h]

/-- C3, on an object that is `Disconnected` and on one that is `Connected`. -/
theorem enqueueEvent_only_when_connected_witness :
    (enqueueEvent (.KeyClientEvent 65 true) (VeyonVncConnection.new false)
        = VeyonVncConnection.new false ∧
      (enqueueEvent (.KeyClientEvent 65 true) (VeyonVncConnection.new false)).m_eventQueue.length
        = (VeyonVncConnection.new false).m_eventQueue.length) ∧
    (enqueueEvent (.KeyClientEvent 65 true)
        { VeyonVncConnection.new false with m_state := .Connected }).m_eventQueue
      = [.KeyClientEvent 65 true] :=
  ⟨(enqueueEvent_only_when_connected (.KeyClientEvent 65 true) (VeyonVncConnection.new false)).1
      (by decide),
   (enqueueEvent_only_when_connected (.KeyClientEvent 65 true)
      { VeyonVncConnection.new false with m_state := .Connected }).2 rfl⟩

/-- C4. Events are sent in enqueue order.  In any world and after any number of
iterations of `sendEvents`, what has been sent followed by what is still queued is what
had been sent followed by the queue and by the events other threads enqueued meanwhile,
and the queue is empty when `sendEvents` returns.  When the events `es` are enqueued
while `Connected` on an empty queue and no other thread enqueues during the call,
`sendEvents` returns after firing exactly `es`, each once and in order, on the current
handle. -/
theorem sendEvents_in_enqueue_order (w : World) (c : VeyonVncConnection) :
    (∀ fuel, ∃ late,
      (sendEvents w fuel c).conn.sent
          ++ (sendEvents w fuel c).conn.m_eventQueue.map (fun e => (c.m_cl, e.fire))
        = c.sent ++ (c.m_eventQueue ++ late).map (fun e => (c.m_cl, e.fire)) ∧
      ((sendEvents w fuel c).isReturned = true →
        (sendEvents w fuel c).conn.m_eventQueue = [])) ∧
    (∀ es : List MessageEvent, c.m_state = .Connected → c.m_eventQueue = [] →
      (∀ t, w.enqueueEvent t = []) →
      (es.foldl (fun c e => enqueueEvent e c) c).m_eventQueue = es ∧
      (sendEvents w (es.length + 1) (es.foldl (fun c e => enqueueEvent e c) c)).isReturned = true ∧
      (sendEvents w (es.length + 1) (es.foldl (fun c e => enqueueEvent e c) c)).conn.sent
        = c.sent ++ es.map (fun e => (c.m_cl, e.fire)) ∧
      (sendEvents w (es.length + 1) (es.foldl (fun c e => enqueueEvent e c) c)).conn.m_eventQueue
        = []) := by
  refine ⟨fun fuel => sendEvents_order w fuel c, ?_⟩
  intro es hc hq hw
  rw [enqueue_list_connected es c hc, hq, List.nil_append]
  have := sendEvents_quiet w hw es c 0
  rw [Nat.add_zero] at this
  rw [this]
  exact ⟨rfl, rfl, rfl, rfl⟩

/-- C4, on the events of the specification: a pointer event, a key event and a cut
text enqueued while connected are sent as exactly these three client messages, in this
order. -/
theorem sendEvents_in_enqueue_order_witness :
    (sendEvents World.offline 4
        (clientCut [104, 105] (keyEvent 0xff0d true (mouseEvent 10 10 1
          { VeyonVncConnection.new false with m_state := .Connected, m_cl := some 0 })))).conn.sent
      = [(some 0, .SendPointerEvent 10 10 1), (some 0, .SendKeyEvent 0xff0d true),
         (some 0, .SendClientCutText [104, 105] 2)] ∧
    (sendEvents World.offline 4
        (clientCut [104, 105] (keyEvent 0xff0d true (mouseEvent 10 10 1
          { VeyonVncConnection.new false with m_state := .Connected, m_cl := some 0 })))).conn.m_eventQueue
      = [] :=
  have h := (sendEvents_in_enqueue_order World.offline
      { VeyonVncConnection.new false with m_state := .Connected, m_cl := some 0 }).2
    [.PointerClientEvent 10 10 1, .KeyClientEvent 0xff0d true, .ClientCutEvent [104, 105]]
    rfl rfl (fun _ => rfl)
  ⟨h.2.2.1, h.2.2.2⟩

/-- C5. `setState` notifies exactly on a change: when the new state differs from the
current one it is stored and appended to the log of `stateChanged`, and otherwise the
object is left as it is.  Consequently the states notified during a run of the worker
loop, whatever the world does and however long it runs, differ pairwise at consecutive
positions; when the run starts in state `Disconnected`, as the constructor and a
finished run leave the object, the first notified state differs from `Disconnected` as
well. -/
theorem stateChanged_on_change_only (w : World) (fuel : Nat) (s : State)
    (c : VeyonVncConnection) :
    (s ≠ c.m_state →
      setState s c = { c with m_state := s, stateChanged := c.stateChanged ++ [s] }) ∧
    (s = c.m_state → setState s c = c) ∧
    (c.stateChanged = [] →
      List.Chain' (fun p q => p ≠ q) (run w fuel c).conn.stateChanged) ∧
    (c.stateChanged = [] → c.m_state = .Disconnected →
      List.Chain' (fun p q => p ≠ q)
        (State.Disconnected :: (run w fuel c).conn.stateChanged)) := by
  refine ⟨fun h => by simp [setState, h], fun h => by simp [setState, h], fun h => ?_,
    fun h hd => ?_⟩
  · have hn : Notified stepOrder [] c := by
      unfold Notified; rw [h]; exact ⟨List.chain'_nil, by simp⟩
    have := (run_notified w [] fuel c hn (fun hne => absurd (by simpa using h) hne)).1
    exact (by simpa using this : List.Chain' stepOrder (run w fuel c).conn.stateChanged).imp
      (fun _ _ hab => hab.1)
  · have hn : Notified stepOrder [.Disconnected] c := by
      unfold Notified; rw [h]
      exact ⟨List.chain'_singleton _, by simp [hd]⟩
    have := (run_notified w [.Disconnected] fuel c hn (fun _ => hd)).1
    exact (by simpa using this :
      List.Chain' stepOrder (State.Disconnected :: (run w fuel c).conn.stateChanged)).imp
      (fun _ _ hab => hab.1)

/-- C5, on the constructed object: a first `setState( Connecting )` notifies, and the
states notified in a world whose server closes every session differ pairwise. -/
theorem stateChanged_on_change_only_witness :
    setState .Connecting (VeyonVncConnection.new false)
      = { VeyonVncConnection.new false with
          m_state := .Connecting, stateChanged := [.Connecting] } ∧
    List.Chain' (fun p q => p ≠ q)
      (run (World.serverClosing 12) 10 (VeyonVncConnection.new false)).conn.stateChanged :=
  have h := stateChanged_on_change_only (World.serverClosing 12) 10 .Connecting
    (VeyonVncConnection.new false)
  ⟨h.1 (by decide), h.2.2.1 rfl⟩

/-- C6. The chosen Veyon authentication type is the preferred type of the connection
when the server offers it, otherwise the first offered type, and `Token` when nothing
is offered. -/
theorem chosenAuthType_spec (connection : VeyonVncConnection) (authTypes : List RfbVeyonAuth) :
    (connection.m_veyonAuthType ∈ authTypes →
      chosenAuthType (some connection) authTypes = connection.m_veyonAuthType) ∧
    (connection.m_veyonAuthType ∉ authTypes →
      chosenAuthType (some connection) authTypes = authTypes.headD .Token) ∧
    (authTypes = [] → chosenAuthType (some connection) authTypes = .Token) := by
  have key : ∀ (l : List RfbVeyonAuth) (init : RfbVeyonAuth),
      (connection.m_veyonAuthType ∈ l →
        l.foldl (fun chosen authType =>
          if connection.m_veyonAuthType = authType then authType else chosen) init
          = connection.m_veyonAuthType) ∧
      (connection.m_veyonAuthType ∉ l →
        l.foldl (fun chosen authType =>
          if connection.m_veyonAuthType = authType then authType else chosen) init = init) := by
    intro l
    induction l using List.reverseRecOn with
    | nil => intro init; simp
    | append_singleton l a ih =>
      intro init
      rw [List.foldl_append]
      simp only [List.foldl_cons, List.foldl_nil, List.mem_append, List.mem_singleton]
      constructor
      · intro h
        by_cases ha : connection.m_veyonAuthType = a
        · simp [ha]
        · rw [if_neg ha]
          rcases h with h | h
          · exact (ih init).1 h
          · exact absurd h ha
      · intro h
        push_neg at h
        rw [if_neg h.2]
        exact (ih init).2 h.1
  refine ⟨?_, ?_, ?_⟩
  · intro h
    cases authTypes with
    | nil => simp at h
    | cons a l => exact (key (a :: l) a).1 h
  · intro h
    cases authTypes with
    | nil => rfl
    | cons a l => exact (key (a :: l) a).2 h
  · intro h; subst h; rfl

/-- C6, on a server offering `Token` and `Logon`: a connection preferring `Logon` picks
`Logon`, one preferring `KeyFile` picks the first offer `Token`, and with no offer the
choice is `Token`. -/
theorem chosenAuthType_spec_witness :
    chosenAuthType (some (VeyonVncConnection.new false)) [.Token, .Logon] = .Logon ∧
    chosenAuthType (some (VeyonVncConnection.new true)) [.Token, .Logon] = .Token ∧
    chosenAuthType (some (VeyonVncConnection.new false)) [] = .Token :=
  ⟨(chosenAuthType_spec (VeyonVncConnection.new false) [.Token, .Logon]).1 (by decide),
   (chosenAuthType_spec (VeyonVncConnection.new true) [.Token, .Logon]).2.1 (by decide),
   (chosenAuthType_spec (VeyonVncConnection.new false) []).2.2 rfl⟩

theorem connectionFailed_state (w : World) (c : VeyonVncConnection) :
    (connectionFailed w c).1.m_state =
      if c.m_serviceReachable = false then
        (if w.ping c.clock = false then .HostOffline else .ServiceUnreachable)
      else if c.m_framebufferState = .FramebufferInvalid then .AuthenticationFailed
      else .ConnectionFailed := by
  unfold connectionFailed
  simp only
  have fin : ∀ c1 : VeyonVncConnection,
      (if w.isInterruptionRequested c1.clock = true then (tick w c1, true)
         else (tick w { tick w c1 with slept := (tick w c1).slept ++ [retryTimeout (tick w c1)] },
           false)).1.m_state = c1.m_state := by
    intro c1; split <;> simp
  rw [fin]
  split
  · split <;> simp
  · split <;> simp

/-- C7. The diagnosis after a failed `rfbInitClient`.  The flag `m_serviceReachable`
after the attempt tells whether `hookPrepareAuthentication` ran during it.  The new
state is `HostOffline` exactly when the flag is false and the ping fails,
`ServiceUnreachable` exactly when the flag is false and the ping succeeds,
`AuthenticationFailed` exactly when the flag is true and the framebuffer phase is
`FramebufferInvalid`, and `ConnectionFailed` exactly when the flag is true and the
phase is another one; so the four cases are exhaustive and exclude each other. -/
theorem connection_failure_diagnosis (w : World) (c : VeyonVncConnection) :
    (connectAttempt w c).2.m_serviceReachable = (w.rfbInitClient c.clock).prepareAuthentication ∧
    ((connectionFailed w c).1.m_state = .HostOffline ↔
      c.m_serviceReachable = false ∧ w.ping c.clock = false) ∧
    ((connectionFailed w c).1.m_state = .ServiceUnreachable ↔
      c.m_serviceReachable = false ∧ w.ping c.clock = true) ∧
    ((connectionFailed w c).1.m_state = .AuthenticationFailed ↔
      c.m_serviceReachable = true ∧ c.m_framebufferState = .FramebufferInvalid) ∧
    ((connectionFailed w c).1.m_state = .ConnectionFailed ↔
      c.m_serviceReachable = true ∧ c.m_framebufferState ≠ .FramebufferInvalid) := by
  refine ⟨?_, ?_⟩
  · simp only [connectAttempt, hookPrepareAuthentication, hookInitFrameBuffer]
    cases (w.rfbInitClient c.clock).prepareAuthentication <;>
      cases (w.rfbInitClient c.clock).initFrameBuffer <;> simp
  · rw [connectionFailed_state]
    cases c.m_serviceReachable <;> cases w.ping c.clock <;>
      by_cases h : c.m_framebufferState = .FramebufferInvalid <;> simp [h]

@[simp] theorem setState_slept (s : State) (c : VeyonVncConnection) :
    (setState s c).slept = c.slept := by
  unfold setState; split <;> rfl

@[simp] theorem setState_interval (s : State) (c : VeyonVncConnection) :
    (setState s c).m_framebufferUpdateInterval = c.m_framebufferUpdateInterval := by
  unfold setState; split <;> rfl

@[simp] theorem setState_newClient (s : State) (c : VeyonVncConnection) :
    (setState s c).newClient = c.newClient := by
  unfold setState; split <;> rfl

@[simp] theorem setState_clock (s : State) (c : VeyonVncConnection) :
    (setState s c).clock = c.clock := by
  unfold setState; split <;> rfl

theorem connectionFailed_slept (w : World) (c : VeyonVncConnection)
    (hi : w.interruptionRequestedAt = none) :
    (connectionFailed w c).1.slept = c.slept ++ [retryTimeout c] ∧
    (connectionFailed w c).2 = false := by
  have hint : ∀ t, w.isInterruptionRequested t = false := by
    intro t; simp [World.isInterruptionRequested, hi]
  unfold connectionFailed
  simp only [hint, Bool.false_eq_true, if_false]
  split
  · split <;> simp [retryTimeout]
  · split <;> simp [retryTimeout]

/-- C8, as the code has it.  After a failed attempt, with no interruption requested,
`establishConnection` waits once on the sleeper and does not leave the loop; the
timeout is `framebufferUpdateInterval` when that is positive and 1000 otherwise.  It
equals `max(framebufferUpdateInterval, 1000)` exactly when the interval is not positive
or at least 1000. -/
theorem reconnect_timeout (w : World) (c : VeyonVncConnection)
    (hi : w.interruptionRequestedAt = none) :
    ∃ t : Nat,
      (connectionFailed w c).1.slept = c.slept ++ [t] ∧
      (connectionFailed w c).2 = false ∧
      (t : Int) = (if c.m_framebufferUpdateInterval > 0 then c.m_framebufferUpdateInterval
                   else 1000) ∧
      ((t : Int) = max c.m_framebufferUpdateInterval 1000 ↔
        c.m_framebufferUpdateInterval ≤ 0 ∨ 1000 ≤ c.m_framebufferUpdateInterval) := by
  have h := connectionFailed_slept w c hi
  have ht : (retryTimeout c : Int) = (if c.m_framebufferUpdateInterval > 0 then
      c.m_framebufferUpdateInterval else 1000) := by
    unfold retryTimeout
    split
    · rename_i hpos; exact Int.toNat_of_nonneg (le_of_lt hpos)
    · rfl
  refine ⟨retryTimeout c, h.1, h.2, ht, ?_⟩
  rw [ht]
  split
  · rename_i hpos
    constructor
    · intro e
      right
      have := le_max_right c.m_framebufferUpdateInterval 1000
      omega
    · intro e
      rcases e with e | e
      · omega
      · exact (max_eq_left e).symm
  · rename_i hpos
    constructor
    · intro _; left; omega
    · intro _
      exact (max_eq_right (by omega)).symm

/-- C8, with an update interval of 500 ms in the world where every attempt fails: the
wait is 500 ms. -/
theorem reconnect_timeout_witness :
    ∃ t : Nat,
      (connectionFailed World.offline
          { VeyonVncConnection.new false with m_framebufferUpdateInterval := 500 }).1.slept
        = [] ++ [t] ∧
      (connectionFailed World.offline
          { VeyonVncConnection.new false with m_framebufferUpdateInterval := 500 }).2 = false ∧
      (t : Int) = (if (500 : Int) > 0 then 500 else 1000) ∧
      ((t : Int) = max (500 : Int) 1000 ↔ (500 : Int) ≤ 0 ∨ (1000 : Int) ≤ 500) :=
  reconnect_timeout World.offline
    { VeyonVncConnection.new false with m_framebufferUpdateInterval := 500 } rfl

/-- C8 as stated fails: with an update interval of 500 ms the wait after a failed
attempt is 500 ms, which is not `max(500, 1000)`. -/
theorem reconnect_timeout_counterexample :
    (connectionFailed World.offline
        { VeyonVncConnection.new false with m_framebufferUpdateInterval := 500 }).1.slept = [500] ∧
    ¬ ((connectionFailed World.offline
        { VeyonVncConnection.new false with m_framebufferUpdateInterval := 500 }).1.slept
      = [(max (500 : Int) 1000).toNat]) := by
  decide

theorem setState_stateChanged (s : State) (c : VeyonVncConnection) :
    (setState s c).stateChanged = if s ≠ c.m_state then c.stateChanged ++ [s] else c.stateChanged := by
  unfold setState; split <;> rfl

/-- One pass through the loop of `establishConnection` in a world without interruption
where the attempt fails before any server byte and the host does not answer a ping. -/
theorem establishConnectionLoop_offline_step (w : World) (n : Nat) (c : VeyonVncConnection)
    (hi : w.interruptionRequestedAt = none)
    (hf : ∀ t, (w.rfbInitClient t).ok = false ∧ (w.rfbInitClient t).prepareAuthentication = false)
    (hp : ∀ t, w.ping t = false) (hc : c.m_state ≠ .Connected) :
    ∃ c' : VeyonVncConnection,
      establishConnectionLoop w (n + 1) c = establishConnectionLoop w n c' ∧
      c'.m_state = .HostOffline ∧
      c'.stateChanged = (setState .HostOffline c).stateChanged ∧
      c'.newClient.length = c.newClient.length + 1 := by
  have hint : ∀ t, w.isInterruptionRequested t = false := by
    intro t; simp [World.isInterruptionRequested, hi]
  have h1 : (connectAttempt w (tick w c)).1 = false := by
    simp [connectAttempt, (hf _).1]
  have h2 : (connectAttempt w (tick w c)).2.m_serviceReachable = false := by
    simp only [connectAttempt, hookPrepareAuthentication, hookInitFrameBuffer, (hf _).2]
    split <;> simp
  have h3 : (connectAttempt w (tick w c)).2.newClient.length = c.newClient.length + 1 := by
    simp only [connectAttempt, hookPrepareAuthentication, hookInitFrameBuffer]
    split <;> split <;> simp
  have h4 := connectAttempt_same w (tick w c)
  rcases hca : connectAttempt w (tick w c) with ⟨ok, c1⟩
  simp only [hca] at h1 h2 h3 h4
  subst h1
  have h5 : (connectionFailed w c1).2 = false := (connectionFailed_slept w c1 hi).2
  have h6 : (connectionFailed w c1).1.m_state = .HostOffline := by
    rw [connectionFailed_state, h2]; simp [hp]
  have h7 : (connectionFailed w c1).1.stateChanged = (setState .HostOffline c).stateChanged := by
    unfold connectionFailed
    simp only [hint, Bool.false_eq_true, if_false, h2, hp, if_true]
    simp [setState_stateChanged, h4.1, h4.2]
  have h8 : (connectionFailed w c1).1.newClient.length = c.newClient.length + 1 := by
    unfold connectionFailed
    simp only [hint, Bool.false_eq_true, if_false, h2, hp, if_true]
    simpa using h3
  rcases hcf : connectionFailed w c1 with ⟨c2, b⟩
  simp only [hcf] at h5 h6 h7 h8
  subst h5
  refine ⟨c2, ?_, h6, h7, h8⟩
  simp only [establishConnectionLoop, hint, tick_m_state, hca, hcf]
  simp [hc]

theorem establishConnectionLoop_offline (w : World) (n : Nat) (c : VeyonVncConnection)
    (hi : w.interruptionRequestedAt = none)
    (hf : ∀ t, (w.rfbInitClient t).ok = false ∧ (w.rfbInitClient t).prepareAuthentication = false)
    (hp : ∀ t, w.ping t = false) (hc : c.m_state = .HostOffline) :
    (establishConnectionLoop w n c).isReturned = false ∧
    (establishConnectionLoop w n c).conn.stateChanged = c.stateChanged ∧
    (establishConnectionLoop w n c).conn.newClient.length = c.newClient.length + n := by
  induction n generalizing c with
  | zero => exact ⟨rfl, rfl, rfl⟩
  | succ n ih =>
    obtain ⟨c', e, h1, h2, h3⟩ :=
      establishConnectionLoop_offline_step w n c hi hf hp (by rw [hc]; decide)
    have := ih c' h1
    rw [e, this.1, this.2.1, this.2.2, h2, h3]
    refine ⟨rfl, ?_, by omega⟩
    simp [setState, hc]

/-- C9, as the code has it.  In a world without interruption where every attempt fails
before any server byte arrives and the host does not answer a ping, the worker loop
started on a `Disconnected` object with an empty log does not return, makes one more
attempt with each further iteration, and the notified states are `Connecting`,
`HostOffline` and nothing else: a retry sets `HostOffline` again, which notifies
nothing, and `Connecting` is not set again. -/
theorem hostOffline_sequence (w : World) (n : Nat) (c : VeyonVncConnection)
    (hi : w.interruptionRequestedAt = none)
    (hf : ∀ t, (w.rfbInitClient t).ok = false ∧ (w.rfbInitClient t).prepareAuthentication = false)
    (hp : ∀ t, w.ping t = false)
    (hs : c.m_state = .Disconnected) (hl : c.stateChanged = []) (hc : c.newClient = []) :
    (run w (n + 2) c).isReturned = false ∧
    (run w (n + 2) c).conn.stateChanged = [.Connecting, .HostOffline] ∧
    (run w (n + 2) c).conn.newClient.length = n + 1 := by
  have hint : ∀ t, w.isInterruptionRequested t = false := by
    intro t; simp [World.isInterruptionRequested, hi]
  obtain ⟨c', e, h1, h2, h3⟩ := establishConnectionLoop_offline_step w n
    { setState .Connecting (tick w c) with m_framebufferState := .FramebufferInvalid }
    hi hf hp (by simp)
  have h4 := establishConnectionLoop_offline w n c' hi hf hp h1
  have h5 : establishConnection w (n + 1) (tick w c) = establishConnectionLoop w n c' := e
  have h6 : c'.stateChanged = [.Connecting, .HostOffline] := by
    rw [h2]; simp [setState, hs, hl]
  have h7 : c'.newClient.length = 1 := by
    rw [h3]; simp [hc]
  rw [h6, h7] at h4
  cases hr : establishConnectionLoop w n c' with
  | returned u c2 => rw [hr] at h4; simp [Outcome.isReturned] at h4
  | running c2 =>
    rw [hr] at h4 h5
    simp only [Outcome.conn] at h4
    have hrun : run w (n + 2) c = .running c2 := by
      unfold run
      simp only [hint, Bool.false_eq_true, if_false, h5]
    rw [hrun]
    exact ⟨rfl, h4.2.1, by simp only [Outcome.conn]; rw [h4.2.2]; omega⟩

/-- C9, in the world where nothing answers: after three attempts the notified states
are `Connecting`, `HostOffline`. -/
theorem hostOffline_sequence_witness :
    (run World.offline (2 + 2) (VeyonVncConnection.new false)).isReturned = false ∧
    (run World.offline (2 + 2) (VeyonVncConnection.new false)).conn.stateChanged
      = [.Connecting, .HostOffline] ∧
    (run World.offline (2 + 2) (VeyonVncConnection.new false)).conn.newClient.length = 2 + 1 :=
  hostOffline_sequence World.offline 2 (VeyonVncConnection.new false) rfl
    (fun _ => ⟨rfl, rfl⟩) (fun _ => rfl) rfl rfl rfl

/-- C9 as stated fails: in the world where nothing answers, after three failed
attempts without interruption the second attempt has not notified `Connecting` again;
the log has two entries, not `Connecting, HostOffline, Connecting, HostOffline`. -/
theorem hostOffline_sequence_counterexample :
    (run World.offline 4 (VeyonVncConnection.new false)).conn.newClient = [0, 1, 2] ∧
    (run World.offline 4 (VeyonVncConnection.new false)).conn.stateChanged
      = [.Connecting, .HostOffline] ∧
    ¬ ((run World.offline 4 (VeyonVncConnection.new false)).conn.stateChanged.take 4
      = [.Connecting, .HostOffline, .Connecting, .HostOffline]) := by
  decide

/-- C10. In every run of the worker loop, whatever the world does and however long it
runs, each pair of consecutive notified states respects the session order: `Connected`
is entered only from `Connecting` or from a failure state, the state after `Connected`
is `Disconnected`, and a failure state is entered only from `Connecting` or from a
failure state, so never from `Connected`.  When the run starts in state `Disconnected`,
as the constructor and a finished run leave the object, this holds for the step from
`Disconnected` to the first notified state as well. -/
theorem session_state_order (w : World) (fuel : Nat) (c : VeyonVncConnection)
    (h : c.stateChanged = []) :
    List.Chain' sessionOrder (run w fuel c).conn.stateChanged ∧
    (c.m_state = .Disconnected →
      List.Chain' sessionOrder (State.Disconnected :: (run w fuel c).conn.stateChanged)) := by
  refine ⟨?_, fun hd => ?_⟩
  · have hn : Notified stepOrder [] c := by
      unfold Notified; rw [h]; exact ⟨List.chain'_nil, by simp⟩
    have := (run_notified w [] fuel c hn (fun hne => absurd (by simpa using h) hne)).1
    exact (by simpa using this : List.Chain' stepOrder (run w fuel c).conn.stateChanged).imp
      (fun _ _ hab => hab.2)
  · have hn : Notified stepOrder [.Disconnected] c := by
      unfold Notified; rw [h]
      exact ⟨List.chain'_singleton _, by simp [hd]⟩
    have := (run_notified w [.Disconnected] fuel c hn (fun _ => hd)).1
    exact (by simpa using this :
      List.Chain' stepOrder (State.Disconnected :: (run w fuel c).conn.stateChanged)).imp
      (fun _ _ hab => hab.2)

/-- C10, in a world whose server accepts every connection and closes it at once, until
the interruption: the notified states are twice `Connecting`, `Connected`,
`Disconnected`, and they respect the session order. -/
theorem session_state_order_witness :
    (run (World.serverClosing 12) 10 (VeyonVncConnection.new false)).conn.stateChanged
      = [.Connecting, .Connected, .Disconnected, .Connecting, .Connected, .Disconnected] ∧
    List.Chain' sessionOrder
      (run (World.serverClosing 12) 10 (VeyonVncConnection.new false)).conn.stateChanged ∧
    List.Chain' sessionOrder (State.Disconnected ::
      (run (World.serverClosing 12) 10 (VeyonVncConnection.new false)).conn.stateChanged) :=
  have h := session_state_order (World.serverClosing 12) 10 (VeyonVncConnection.new false) rfl
  ⟨by decide, h.1, h.2 rfl⟩

/-! ## The framebuffer -/

theorem wrapInt32_of_range (x : Int) (h0 : 0 ≤ x) (h1 : x ≤ 2147483647) : wrapInt32 x = x := by
  unfold wrapInt32; omega

/-- Where the product fits an `int`, the size is the number of bytes of the pixels. -/
theorem frameBufferSize_of_range (width height : Int) (hw : 0 ≤ width) (hh : 0 ≤ height)
    (h : width * height * 4 ≤ 2147483647) :
    (frameBufferSize width height 32 : Int) = width * height * 4 := by
  have hp : 0 ≤ width * height := mul_nonneg hw hh
  have e1 : wrapInt32 (width * height) = width * height :=
    wrapInt32_of_range _ hp (by omega)
  have e2 : ((32 : Nat) : Int) / 8 = 4 := by decide
  have e3 : wrapInt32 (width * height * 4) = width * height * 4 :=
    wrapInt32_of_range _ (by omega) h
  unfold frameBufferSize
  rw [e1, e2, e3]
  unfold toUInt64
  rw [Int.toNat_of_nonneg (Int.emod_nonneg _ (by decide))]
  omega

/-- C13. The buffer of `hookInitFrameBuffer` is not always `width*height*4` bytes: on a
server that announces 32768 by 32768 pixels at 32 bits per pixel the product of `int`s
wraps to 0 and a buffer of 0 bytes is allocated, and on one that announces 32768 by
16384 it wraps to a negative `int` whose conversion asks for 2^64 - 2^31 bytes; the
pixels need 4294967296 and 2147483648 bytes. -/
theorem hookInitFrameBuffer_size_overflow (c : VeyonVncConnection) :
    (hookInitFrameBuffer 32768 32768 32 c).frameBuffer = some { size := 0, byte := 0 } ∧
    (32768 * 32768 * 4 : Int) = 4294967296 ∧
    (hookInitFrameBuffer 32768 16384 32 c).frameBuffer
      = some { size := 18446744071562067968, byte := 0 } ∧
    (32768 * 16384 * 4 : Int) = 2147483648 := by
  have e1 : frameBufferSize 32768 32768 32 = 0 := by decide
  have e2 : frameBufferSize 32768 16384 32 = 18446744071562067968 := by decide
  refine ⟨?_, by decide, ?_, by decide⟩
  · show some ({ size := frameBufferSize 32768 32768 32, byte := 0 } : Buffer) = _
    rw [e1]
  · show some ({ size := frameBufferSize 32768 16384 32, byte := 0 } : Buffer) = _
    rw [e2]

theorem finishFrameBufferUpdate_cases (c : VeyonVncConnection) :
    (c.m_framebufferState = .FramebufferInitialized →
      (finishFrameBufferUpdate c).m_framebufferState = .FramebufferFirstUpdate ∧
      (finishFrameBufferUpdate c).framebufferSizeChanged
        = c.framebufferSizeChanged ++ [(c.m_image.width, c.m_image.height)]) ∧
    (c.m_framebufferState = .FramebufferFirstUpdate →
      (finishFrameBufferUpdate c).m_framebufferState = .FramebufferValid ∧
      (finishFrameBufferUpdate c).framebufferSizeChanged = c.framebufferSizeChanged) ∧
    (c.m_framebufferState ≠ .FramebufferInitialized →
      c.m_framebufferState ≠ .FramebufferFirstUpdate →
      (finishFrameBufferUpdate c).m_framebufferState = c.m_framebufferState ∧
      (finishFrameBufferUpdate c).framebufferSizeChanged = c.framebufferSizeChanged) ∧
    (finishFrameBufferUpdate c).m_image = c.m_image := by
  unfold finishFrameBufferUpdate
  cases h : c.m_framebufferState <;> simp [h]

/-- The invariant of the framebuffer callbacks: once an update has finished since the
last allocation the last size signalled is the size of the image, and before any
allocation the image is null and no size has been signalled. -/
theorem callbacks_snapshot (cbs : List Callback) (c : VeyonVncConnection)
    (h1 : c.m_framebufferState = .FramebufferFirstUpdate ∨
        c.m_framebufferState = .FramebufferValid →
      c.framebufferSizeChanged.getLast? = some (c.m_image.width, c.m_image.height))
    (h2 : c.m_framebufferState = .FramebufferInvalid →
      c.m_image.isNull = true ∧ c.framebufferSizeChanged = []) :
    ((cbs.foldl (fun c cb => cb.run c) c).m_framebufferState = .FramebufferFirstUpdate ∨
        (cbs.foldl (fun c cb => cb.run c) c).m_framebufferState = .FramebufferValid →
      (cbs.foldl (fun c cb => cb.run c) c).framebufferSizeChanged.getLast?
        = some ((cbs.foldl (fun c cb => cb.run c) c).m_image.width,
            (cbs.foldl (fun c cb => cb.run c) c).m_image.height)) ∧
    ((cbs.foldl (fun c cb => cb.run c) c).m_framebufferState = .FramebufferInvalid →
      (cbs.foldl (fun c cb => cb.run c) c).m_image.isNull = true ∧
      (cbs.foldl (fun c cb => cb.run c) c).framebufferSizeChanged = []) := by
  induction cbs generalizing c with
  | nil => exact ⟨h1, h2⟩
  | cons cb cbs ih =>
    rw [List.foldl_cons]
    apply ih
    · cases cb with
      | hookInitFrameBuffer w h =>
        intro hs
        simp [Callback.run, hookInitFrameBuffer] at hs
      | hookFinishFrameBufferUpdate =>
        intro hs
        obtain ⟨f1, f2, f3, f4⟩ := finishFrameBufferUpdate_cases c
        simp only [Callback.run] at hs ⊢
        rw [f4]
        by_cases i1 : c.m_framebufferState = .FramebufferInitialized
        · rw [(f1 i1).2]; simp
        · by_cases i2 : c.m_framebufferState = .FramebufferFirstUpdate
          · rw [(f2 i2).2]; exact h1 (Or.inl i2)
          · rw [(f3 i1 i2).1] at hs
            rw [(f3 i1 i2).2]; exact h1 hs
    · cases cb with
      | hookInitFrameBuffer w h =>
        intro hs
        simp [Callback.run, hookInitFrameBuffer] at hs
      | hookFinishFrameBufferUpdate =>
        intro hs
        obtain ⟨f1, f2, f3, f4⟩ := finishFrameBufferUpdate_cases c
        simp only [Callback.run] at hs ⊢
        rw [f4]
        by_cases i1 : c.m_framebufferState = .FramebufferInitialized
        · rw [(f1 i1).1] at hs; cases hs
        · by_cases i2 : c.m_framebufferState = .FramebufferFirstUpdate
          · rw [(f2 i2).1] at hs; cases hs
          · rw [(f3 i1 i2).1] at hs
            rw [(f3 i1 i2).2]; exact h2 hs

/-- C11, as the code has it.  In every state reached from the constructed object through
the allocation callback and the finish-update callback: once an update has finished
since the last allocation (phase `FramebufferFirstUpdate` or `FramebufferValid`) the
snapshot of `image()` has the width and height of the last `framebufferSizeChanged`;
before any allocation (phase `FramebufferInvalid`) the snapshot is empty and nothing has
been signalled; and right after an allocation (phase `FramebufferInitialized`) the
snapshot is already the image of the announced size, while the signals are those of
before. -/
theorem snapshot_dimensions (keyFile : Bool) (cbs : List Callback) :
    ((cbs.foldl (fun c cb => cb.run c) (VeyonVncConnection.new keyFile)).m_framebufferState
          = .FramebufferFirstUpdate ∨
        (cbs.foldl (fun c cb => cb.run c) (VeyonVncConnection.new keyFile)).m_framebufferState
          = .FramebufferValid →
      (cbs.foldl (fun c cb => cb.run c)
          (VeyonVncConnection.new keyFile)).framebufferSizeChanged.getLast?
        = some ((image (cbs.foldl (fun c cb => cb.run c) (VeyonVncConnection.new keyFile))).width,
            (image (cbs.foldl (fun c cb => cb.run c) (VeyonVncConnection.new keyFile))).height)) ∧
    ((cbs.foldl (fun c cb => cb.run c) (VeyonVncConnection.new keyFile)).m_framebufferState
          = .FramebufferInvalid →
      (image (cbs.foldl (fun c cb => cb.run c) (VeyonVncConnection.new keyFile))).isNull = true ∧
      (cbs.foldl (fun c cb => cb.run c)
          (VeyonVncConnection.new keyFile)).framebufferSizeChanged = []) ∧
    (∀ width height : Int,
      ((cbs ++ [Callback.hookInitFrameBuffer width height]).foldl (fun c cb => cb.run c)
          (VeyonVncConnection.new keyFile)).m_framebufferState = .FramebufferInitialized ∧
      image ((cbs ++ [Callback.hookInitFrameBuffer width height]).foldl (fun c cb => cb.run c)
          (VeyonVncConnection.new keyFile)) = QImage.fromData width height ∧
      ((cbs ++ [Callback.hookInitFrameBuffer width height]).foldl (fun c cb => cb.run c)
          (VeyonVncConnection.new keyFile)).framebufferSizeChanged
        = (cbs.foldl (fun c cb => cb.run c)
          (VeyonVncConnection.new keyFile)).framebufferSizeChanged) := by
  have h := callbacks_snapshot cbs (VeyonVncConnection.new keyFile)
    (by intro hs; rcases hs with hs | hs <;> cases hs) (fun _ => ⟨rfl, rfl⟩)
  refine ⟨h.1, h.2, ?_⟩
  intro width height
  rw [List.foldl_append]
  exact ⟨rfl, rfl, rfl⟩

/-- C11, after an allocation of 320 by 240 and one finished update: 320 by 240 is the
size last signalled and the size of the snapshot. -/
theorem snapshot_dimensions_witness :
    ([Callback.hookInitFrameBuffer 320 240, .hookFinishFrameBufferUpdate].foldl
        (fun c cb => cb.run c) (VeyonVncConnection.new false)).framebufferSizeChanged.getLast?
      = some ((image ([Callback.hookInitFrameBuffer 320 240, .hookFinishFrameBufferUpdate].foldl
          (fun c cb => cb.run c) (VeyonVncConnection.new false))).width,
        (image ([Callback.hookInitFrameBuffer 320 240, .hookFinishFrameBufferUpdate].foldl
          (fun c cb => cb.run c) (VeyonVncConnection.new false))).height) ∧
    image ([Callback.hookInitFrameBuffer 320 240, .hookFinishFrameBufferUpdate].foldl
      (fun c cb => cb.run c) (VeyonVncConnection.new false)) = .wrap 320 240 :=
  ⟨(snapshot_dimensions false
      [Callback.hookInitFrameBuffer 320 240, .hookFinishFrameBufferUpdate]).1
      (Or.inl (by decide)),
   by decide⟩

/-- C11 as stated fails.  After the first allocation of 320 by 240 the snapshot is a
320 by 240 image, not empty, and no `framebufferSizeChanged` has been emitted; after a
finished update and a resize to 640 by 480 the snapshot is 640 by 480 and the size last
signalled is 320 by 240. -/
theorem snapshot_dimensions_counterexample :
    (image ([Callback.hookInitFrameBuffer 320 240].foldl (fun c cb => cb.run c)
        (VeyonVncConnection.new false)) = .wrap 320 240 ∧
      ([Callback.hookInitFrameBuffer 320 240].foldl (fun c cb => cb.run c)
        (VeyonVncConnection.new false)).framebufferSizeChanged = []) ∧
    (image ([Callback.hookInitFrameBuffer 320 240, .hookFinishFrameBufferUpdate,
          .hookInitFrameBuffer 640 480].foldl (fun c cb => cb.run c)
        (VeyonVncConnection.new false)) = .wrap 640 480 ∧
      ([Callback.hookInitFrameBuffer 320 240, .hookFinishFrameBufferUpdate,
          .hookInitFrameBuffer 640 480].foldl (fun c cb => cb.run c)
        (VeyonVncConnection.new false)).framebufferSizeChanged.getLast? = some (320, 240)) := by
  decide

/-! ## The Veyon security type -/

/-- C12. When the chosen authentication type is `Token`, `handleSecTypeVeyon` reads the
offered list and then performs exactly three operations on the socket: it writes the
array of `Token` and the user name, reads one acknowledgement, and writes the array of
the token.  The user name is that of the logon credentials when they are present and
the current user of the system otherwise. -/
theorem token_auth_trace (core : VeyonCore) (connection : Option VeyonVncConnection)
    (incoming : List (List Variant))
    (h : chosenAuthType connection (offeredAuthTypes core (receive incoming).1) = .Token) :
    handleSecTypeVeyon core connection incoming
      = SocketOp.read ::
        [SocketOp.write [Variant.authType .Token,
            Variant.string (if core.hasUserLogon then core.logonUsername else core.currentUser)],
          SocketOp.read,
          SocketOp.write [core.token]] := by
  unfold handleSecTypeVeyon
  simp only [h]
  rfl

/-- C12, on a server offering `Token` and `Logon` to a connection that prefers `Token`,
with the token `DE AD BE EF` and the current user `alice`. -/
theorem token_auth_trace_witness :
    handleSecTypeVeyon VeyonCore.withToken
        (some { VeyonVncConnection.new false with m_veyonAuthType := .Token })
        [[.int 2, .authType .Token, .authType .Logon], []]
      = SocketOp.read ::
        [SocketOp.write [Variant.authType .Token, Variant.string "alice".toList],
          SocketOp.read,
          SocketOp.write [Variant.byteArray [0xDE, 0xAD, 0xBE, 0xEF]]] :=
  token_auth_trace VeyonCore.withToken
    (some { VeyonVncConnection.new false with m_veyonAuthType := .Token })
    [[.int 2, .authType .Token, .authType .Logon], []] (by decide)

/-! ## Events and the client handle -/

/-- C14. An event can be fired on a null client handle.  In the world `World.staleEvent`
a key event is enqueued while `Connected`, `handleConnection` returns on the initial
framebuffer timeout without sending it, `closeConnection` clears the handle, and after
the interruption the next `handleConnection` runs `sendEvents` on the queue that still
holds the event: the run returns with the key event sent on the null handle.  The
notified states are `Connecting`, `Connected`, `Disconnected`, `Connecting`,
`Disconnected`. -/
theorem event_fired_on_null_handle :
    (run World.staleEvent 20 (VeyonVncConnection.new false)).isReturned = true ∧
    (none, ClientMessage.SendKeyEvent 65 true)
      ∈ (run World.staleEvent 20 (VeyonVncConnection.new false)).conn.sent ∧
    (run World.staleEvent 20 (VeyonVncConnection.new false)).conn.stateChanged
      = [.Connecting, .Connected, .Disconnected, .Connecting, .Disconnected] := by
  decide

end Veyon
